import Mathlib

/-!
Verification development for the ai-custdev-cli core: a shallow embedding of
the resilience layer (retrying completion client, JSON-from-prose extractor,
resumable batch scheduler, interview session state machine, multi-model
analysis fallback cascade, fallback-model list loader), with theorems checking
the natural-language specification against the code.

Strings are modelled as `List Char`; machine integers do not occur (all counts
are small naturals).  Platform functions used by the code (JavaScript's
`JSON.parse` / `JSON.stringify`, regular-expression matching, zod schemas) are
modelled definitionally where theorems need them.
-/

namespace CustDev

/-- Whitespace as matched by JavaScript's regex `\s` and by `String.trim`,
restricted to the characters that can occur in our inputs. -/
def isJsWs (c : Char) : Bool :=
  c = ' ' || c = '\t' || c = '\n' || c = '\r' || c = '\x0b' || c = '\x0c' || c = ' '

/-- Model of JavaScript `String.prototype.trim`. -/
def trimL (cs : List Char) : List Char :=
  ((cs.dropWhile isJsWs).reverse.dropWhile isJsWs).reverse

/-- Case folding as performed by a JavaScript case-insensitive regex or
`toLowerCase`, for the ASCII and Cyrillic letters that occur in this code. -/
def lcChar (c : Char) : Char :=
  if 'A' ≤ c ∧ c ≤ 'Z' then Char.ofNat (c.toNat + 32)
  else if 0x410 ≤ c.toNat ∧ c.toNat ≤ 0x42F then Char.ofNat (c.toNat + 32)
  else if c.toNat = 0x401 then Char.ofNat 0x451
  else c

/-- Lowercase a whole string (JavaScript `toLowerCase` on our alphabet). -/
def lcStr (cs : List Char) : List Char := cs.map lcChar

/-! ### StructuredExtractor: `extractJsonBlock` (src/unnamed/part_003)

The fenced-block regex `/\x60\x60\x60(?:json)?\s*([\s\S]*?)\x60\x60\x60/i`
matches at the first triple backtick; the optional `json` tag and the greedy
`\s*` cannot hide a later triple backtick (neither `json` letters nor
whitespace are backticks), so its interior is exactly: skip the tag and
leading whitespace, then take characters up to the next triple backtick. -/

/-- Whether the input begins with a triple backtick. -/
def isTripleAt (cs : List Char) : Bool :=
  match cs with
  | c :: d :: e :: _ => c = '`' && d = '`' && e = '`'
  | _ => false

/-- Suffix of the input just after the first triple backtick, if any. -/
def findFence : List Char → Option (List Char)
  | [] => none
  | c :: rest => if isTripleAt (c :: rest) then some (rest.drop 2) else findFence rest

/-- Skip a literal (case-insensitive) `json` tag, as the regex alternative does. -/
def skipJsonTag (cs : List Char) : List Char :=
  match cs with
  | a :: b :: c :: d :: rest =>
    if lcChar a = 'j' ∧ lcChar b = 's' ∧ lcChar c = 'o' ∧ lcChar d = 'n' then rest else cs
  | _ => cs

/-- Characters strictly before the next triple backtick; `none` if the fence
is never closed (the regex then fails to match anywhere). -/
def takeUntilFence : List Char → Option (List Char)
  | [] => none
  | c :: rest =>
    if isTripleAt (c :: rest) then some []
    else (takeUntilFence rest).map (fun l => c :: l)

/-- Interior of the first fenced code block (group 1 of the fence regex). -/
def fencedInterior (cs : List Char) : Option (List Char) :=
  (findFence cs).bind (fun rest => takeUntilFence ((skipJsonTag rest).dropWhile isJsWs))

/-- Model of `findJsonStart`: suffix beginning at the first occurrence of
`openC` whose next non-whitespace character satisfies `good`. -/
def findJsonStart (openC : Char) (good : Char → Bool) : List Char → Option (List Char)
  | [] => none
  | c :: rest =>
    if c = openC ∧ (match rest.dropWhile isJsWs with
                    | n :: _ => good n
                    | [] => false) = true
    then some (c :: rest)
    else findJsonStart openC good rest

/-- Model of `findMatchingBracket`, started on the suffix whose head is the
opening bracket: scans tracking depth, treating double-quoted strings as
opaque (with backslash escapes), and returns the block up to and including
the matching close bracket. -/
def scanBracket (openC closeC : Char) : List Char → Nat → Bool → Bool → Option (List Char)
  | [], _, _, _ => none
  | c :: rest, depth, inStr, esc =>
    if inStr then
      if esc then (scanBracket openC closeC rest depth true false).map (fun l => c :: l)
      else if c = '\\' then (scanBracket openC closeC rest depth true true).map (fun l => c :: l)
      else if c = '"' then (scanBracket openC closeC rest depth false false).map (fun l => c :: l)
      else (scanBracket openC closeC rest depth true false).map (fun l => c :: l)
    else if c = '"' then (scanBracket openC closeC rest depth true false).map (fun l => c :: l)
    else if c = openC then (scanBracket openC closeC rest (depth + 1) false false).map (fun l => c :: l)
    else if c = closeC then
      if depth = 1 then some [c]
      else (scanBracket openC closeC rest (depth - 1) false false).map (fun l => c :: l)
    else (scanBracket openC closeC rest depth false false).map (fun l => c :: l)

/-- Array heuristic: next non-whitespace character after `[` opens an object or array. -/
def isArrNext (n : Char) : Bool := n = '\x7b' || n = '['

/-- Object heuristic: next non-whitespace character after the brace is a double quote. -/
def isObjNext (n : Char) : Bool := n = '"'

/-- The bracket-matching path of `extractJsonBlock` (no fenced block present
or its interior empty): first the array heuristic, then the object one. -/
def extractNoFence (cs : List Char) : Option (List Char) :=
  match (findJsonStart '[' isArrNext cs).bind (fun suf => scanBracket '[' ']' suf 0 false false) with
  | some block => some (trimL block)
  | none =>
    match (findJsonStart '\x7b' isObjNext cs).bind
        (fun suf => scanBracket '\x7b' '\x7d' suf 0 false false) with
    | some block => some (trimL block)
    | none => none

/-- Model of `extractJsonBlock`: fenced block first (its interior must be
non-empty, mirroring the truthiness check on the regex group), then bracket
matching. -/
def extractJsonBlock (cs : List Char) : Option (List Char) :=
  match fencedInterior cs with
  | some interior => if interior ≠ [] then some (trimL interior) else extractNoFence cs
  | none => extractNoFence cs

/-- First C8 fixture: prose around a JSON object. -/
def c8prose : List Char := ("Here is the result: \x7b\"a\": 1\x7d thanks").data

/-- Expected extraction from the first C8 fixture. -/
def c8proseBlock : List Char := ("\x7b\"a\": 1\x7d").data

/-- Second C8 fixture: an object whose string value contains a closing brace. -/
def c8braces : List Char := ("\x7b\"a\": \"\x7d \"\x7d").data

/-! ### JSON data model and a model of the platform serializer

`JSON.stringify` / `JSON.parse` are platform functions consumed by the code
(`parseJsonFromText`, the analysis strict parse); they are modelled here
definitionally.  Numbers are modelled as integers (the analysis pipeline never
relies on fractional numerals). -/

/-- A JSON value, as produced or consumed by the platform JSON functions. -/
inductive Json where
  | null
  | bool (b : Bool)
  | num (n : Int)
  | str (s : List Char)
  | arr (elems : List Json)
  | obj (members : List (List Char × Json))

/-- Decimal digit character, for the serializer model. -/
def digitChar : Nat → Char
  | 0 => '0'
  | 1 => '1'
  | 2 => '2'
  | 3 => '3'
  | 4 => '4'
  | 5 => '5'
  | 6 => '6'
  | 7 => '7'
  | 8 => '8'
  | 9 => '9'
  | _ => '*'

/-- Hexadecimal digit character (lowercase), for control-character escapes. -/
def hexChar : Nat → Char
  | 10 => 'a'
  | 11 => 'b'
  | 12 => 'c'
  | 13 => 'd'
  | 14 => 'e'
  | 15 => 'f'
  | n => digitChar n

/-- Decimal digits of a natural number, most significant first; the fuel is
always sufficient at `n + 1` since `n / 10 < n` for `n ≥ 10`. -/
def natDigitsAux : Nat → Nat → List Char
  | 0, _ => []
  | fuel + 1, n =>
    if n < 10 then [digitChar n]
    else natDigitsAux fuel (n / 10) ++ [digitChar (n % 10)]

/-- Decimal representation of a natural number. -/
def natDigits (n : Nat) : List Char := natDigitsAux (n + 1) n

/-- Decimal representation of an integer, as `JSON.stringify` renders it. -/
def intChars : Int → List Char
  | Int.ofNat n => natDigits n
  | Int.negSucc n => '-' :: natDigits (n + 1)

/-- Escape of one character inside a JSON string literal, as the platform
serializer performs it (note that backticks are not escaped). -/
def escChar (c : Char) : List Char :=
  if c = '"' then ['\\', '"']
  else if c = '\\' then ['\\', '\\']
  else if c = '\x08' then ['\\', 'b']
  else if c = '\x0c' then ['\\', 'f']
  else if c = '\n' then ['\\', 'n']
  else if c = '\r' then ['\\', 'r']
  else if c = '\t' then ['\\', 't']
  else if c.toNat < 0x20 then
    ['\\', 'u', '0', '0', hexChar (c.toNat / 16), hexChar (c.toNat % 16)]
  else [c]

/-- Escape of a whole JSON string body. -/
def escape (s : List Char) : List Char := (s.map escChar).flatten

mutual

/-- Model of the platform `JSON.stringify` (compact form, no spacing). -/
def stringify : Json → List Char
  | Json.null => 'n' :: 'u' :: 'l' :: 'l' :: []
  | Json.bool true => 't' :: 'r' :: 'u' :: 'e' :: []
  | Json.bool false => 'f' :: 'a' :: 'l' :: 's' :: 'e' :: []
  | Json.num n => intChars n
  | Json.str s => '"' :: (escape s ++ ['"'])
  | Json.arr es => '[' :: (stringifyArr es ++ [']'])
  | Json.obj ms => '\x7b' :: (stringifyObj ms ++ ['\x7d'])

/-- Comma-separated serialization of array elements. -/
def stringifyArr : List Json → List Char
  | [] => []
  | [e] => stringify e
  | e :: es => stringify e ++ (',' :: stringifyArr es)

/-- Comma-separated serialization of object members. -/
def stringifyObj : List (List Char × Json) → List Char
  | [] => []
  | [kv] => '"' :: (escape kv.1 ++ ('"' :: ':' :: stringify kv.2))
  | kv :: ms => ('"' :: (escape kv.1 ++ ('"' :: ':' :: stringify kv.2))) ++ (',' :: stringifyObj ms)

end

/-- Whether the text contains three consecutive backticks. -/
def hasTriple : List Char → Bool
  | [] => false
  | c :: rest => isTripleAt (c :: rest) || hasTriple rest

/-- Wrapping a text in a language-tagged fenced code block, as the round-trip
property of the spec describes. -/
def fenceWrap (s : List Char) : List Char :=
  '`' :: '`' :: '`' :: 'j' :: 's' :: 'o' :: 'n' :: '\n' :: (s ++ '\n' :: '`' :: '`' :: '`' :: [])

/-- Round-trip probe value whose serialization contains a triple backtick. -/
def c9bad : Json := Json.str ('`' :: '`' :: '`' :: [])

/-- Round-trip witness value: the object with one numeric member. -/
def c9good : Json := Json.obj [(('a' :: []), Json.num 1)]

/-! ### CompletionClient: `LlmClient.createChatCompletion` (src/unnamed/part_004)

The axios transport is modelled by a backend oracle mapping the attempt index
to the outcome of that network call; the loop state (attempt counter, backoff)
and the sleeps performed are explicit. -/

/-- Message roles of the completion wire contract. -/
inductive Role where
  | system
  | user
  | assistant
deriving DecidableEq

/-- One turn of a conversation. -/
structure ChatMessage where
  role : Role
  content : List Char
deriving DecidableEq

/-- One candidate of a completion response (`choices[i].message`): primary
text plus the optional secondary reasoning text. -/
structure ChoiceMessage where
  content : Option (List Char)
  reasoning : Option (List Char)
deriving DecidableEq

/-- A completion response: the list of candidates. -/
structure ChatResponse where
  choices : List ChoiceMessage
deriving DecidableEq

/-- Outcome of one network call as the code observes it: either a response,
or an error with optional HTTP status, a timeout flag, an error message, the
stringified response body, and an optional `retry-after` header (seconds). -/
inductive LlmOutcome where
  | success (response : ChatResponse)
  | failure (status : Option Nat) (isTimeout : Bool) (message : List Char)
      (responseData : List Char) (retryAfterSeconds : Option Nat)

/-- Milliseconds derived from the `retry-after` header (0 when absent, as
`Number(undefined)` is not finite). -/
def retryAfterMs : Option Nat → Nat
  | some s => s * 1000
  | none => 0

/-- Transient-failure classification: timeout, rate limit, server error or
server busy. -/
def shouldRetry (status : Option Nat) (isTimeout : Bool) : Bool :=
  isTimeout || status = some 429 || status = some 500 || status = some 503

/-- The status fragment of the raised error text. -/
def statusInfo : Option Nat → List Char
  | some s => (" (status ").data ++ (natDigits s ++ (")").data)
  | none => []

/-- The response-body fragment of the raised error text. -/
def errDetails (data : List Char) : List Char :=
  if data = [] then [] else (" - ").data ++ data

/-- The raised error text: status (if any), underlying message, response body. -/
def errString (status : Option Nat) (msg data : List Char) : List Char :=
  ("LLM request failed").data ++ (statusInfo status ++ ((": ").data ++ (msg ++ errDetails data)))

/-- Result of `createChatCompletion`: the response or the raised error, each
with the number of retries performed and the list of sleep durations. -/
inductive CCResult where
  | ok (response : ChatResponse) (retries : Nat) (sleeps : List Nat)
  | error (message : List Char) (retries : Nat) (sleeps : List Nat)

/-- The retry loop of `createChatCompletion`: classify the outcome; on a
transient failure with attempts remaining sleep `max backoff retryAfter`,
double the backoff and retry, otherwise raise. -/
def ccLoop (maxRetries : Nat) (backend : Nat → LlmOutcome) (attempt backoff : Nat)
    (sleeps : List Nat) : CCResult :=
  match backend attempt with
  | LlmOutcome.success r => CCResult.ok r attempt sleeps
  | LlmOutcome.failure st tmo msg data ra =>
    if h : shouldRetry st tmo = true ∧ attempt < maxRetries then
      ccLoop maxRetries backend (attempt + 1) (backoff * 2)
        (sleeps ++ [max backoff (retryAfterMs ra)])
    else CCResult.error (errString st msg data) attempt sleeps
termination_by maxRetries + 1 - attempt
decreasing_by omega

/-- Model of `createChatCompletion`: the loop started at attempt 0 with the
configured initial backoff. -/
def createChatCompletion (maxRetries initialBackoffMs : Nat)
    (backend : Nat → LlmOutcome) : CCResult :=
  ccLoop maxRetries backend 0 initialBackoffMs []

/-- A concrete response used by client witnesses. -/
def c1response : ChatResponse := ⟨[⟨some ('h' :: 'i' :: []), none⟩]⟩

/-- A backend that rate-limits twice and then succeeds. -/
def c1backend : Nat → LlmOutcome
  | 0 => LlmOutcome.failure (some 429) false [] [] none
  | 1 => LlmOutcome.failure (some 429) false [] [] (some 7)
  | _ => LlmOutcome.success c1response

/-- A backend that fails immediately with a non-transient 400 status. -/
def c2backend : Nat → LlmOutcome
  | _ => LlmOutcome.failure (some 400) false ('b' :: 'a' :: 'd' :: []) ('x' :: []) none

/-! ### SessionRunner: `InterviewSession` (src/src/types/config.ts, lines 798-979)

The client is modelled as an oracle from the global call counter to the call's
outcome (`Except` carries a raised completion error); the counter is threaded
through the run so successive attempts can observe different outcomes. -/

/-- Model of `extractMessageText` (src/src/utils/llm.ts): the trimmed primary
content when non-empty, else the trimmed reasoning text, else empty. -/
def extractMessageText : Option ChoiceMessage → List Char
  | none => []
  | some m =>
    let t := match m.content with
      | some c => trimL c
      | none => []
    if t ≠ [] then t
    else match m.reasoning with
      | some rr => trimL rr
      | none => []

/-- The model-formatting artifacts stripped by the sanitizers, lowercase. -/
def artifactToks : List (List Char) :=
  [("<s>").data, ("</s>").data, ("[out]").data, ("[/out]").data,
    ("[b_inst]").data, ("[/b_inst]").data]

/-- Remainder after one artifact token, when the input starts with one
(case-insensitively). -/
def matchArtifact (cs : List Char) : Option (List Char) :=
  artifactToks.findSome? (fun tok =>
    if (cs.take tok.length).map lcChar = tok then some (cs.drop tok.length) else none)

/-- Global replacement of the artifact tokens by the empty string; the fuel is
always sufficient at the input length. -/
def stripArtifacts (fuel : Nat) (cs : List Char) : List Char :=
  match fuel with
  | 0 => cs
  | fuel + 1 =>
    match matchArtifact cs with
    | some rest => stripArtifacts fuel rest
    | none =>
      match cs with
      | [] => []
      | c :: rest => c :: stripArtifacts fuel rest

/-- Model of `InterviewSession.sanitizeContent` and of the analysis
sanitization step: strip artifacts, then trim. -/
def sanitizeContent (cs : List Char) : List Char := trimL (stripArtifacts cs.length cs)

/-- Result of `requestContent`: the accepted text or the raised error, with
the next call-counter value and the sleeps performed. -/
inductive RCResult where
  | ok (content : List Char) (calls : Nat) (sleeps : List Nat)
  | error (message : List Char) (calls : Nat) (sleeps : List Nat)
deriving DecidableEq

/-- The cleaned text of a response, as `requestContent` computes it: the
extracted message text, sanitized when non-empty. -/
def cleanedContent (resp : ChatResponse) : List Char :=
  if extractMessageText resp.choices.head? ≠ [] then
    sanitizeContent (extractMessageText resp.choices.head?)
  else []

/-- The attempt loop of `requestContent`, structurally recursive on the
remaining attempts: a raised completion error propagates; non-empty sanitized
content is returned; otherwise sleep `1000 × attempt` (skipped after the last
attempt) and try again; exhaustion raises `label response missing.`. -/
def rcLoop (client : Nat → Except (List Char) ChatResponse) (label : List Char) :
    Nat → Nat → Nat → List Nat → RCResult
  | 0, _, counter, sleeps =>
    RCResult.error (label ++ (" response missing.").data) counter sleeps
  | r + 1, attempt, counter, sleeps =>
    match client counter with
    | Except.error e => RCResult.error e (counter + 1) sleeps
    | Except.ok resp =>
      if cleanedContent resp ≠ [] then RCResult.ok (cleanedContent resp) (counter + 1) sleeps
      else
        rcLoop client label r (attempt + 1) (counter + 1)
          (if 0 < r then sleeps ++ [1000 * (attempt + 1)] else sleeps)

/-- Model of `InterviewSession.requestContent` with the given attempt budget,
started at the given call counter. -/
def requestContent (client : Nat → Except (List Char) ChatResponse) (label : List Char)
    (maxAttempts counter : Nat) : RCResult :=
  rcLoop client label maxAttempts 0 counter []

/-- The two interviewer modes. -/
inductive InterviewerMode where
  | script
  | llm
deriving DecidableEq

/-- The interviewer turn: in script mode the literal script line without any
call; in llm mode the requested utterance, falling back to the script line
when the request exhausts its budget or raises. -/
def interviewerContent (mode : InterviewerMode)
    (client : Nat → Except (List Char) ChatResponse) (step : List Char) (counter : Nat) :
    List Char × Nat :=
  match mode with
  | InterviewerMode.script => (step, counter)
  | InterviewerMode.llm =>
    match requestContent client ("interviewer").data 3 counter with
    | RCResult.ok content calls _ => (content, calls)
    | RCResult.error _ calls _ => (step, calls)

/-- Result of a session run: the message list on success, or the raised
respondent error. -/
inductive SessionResult where
  | ok (messages : List ChatMessage) (calls : Nat)
  | error (message : List Char) (calls : Nat)
deriving DecidableEq

/-- The step loop of `InterviewSession.run`: per script step, append the
interviewer turn with role user, then the respondent turn (budget 5) with role
assistant; a respondent failure fails the session. -/
def runSteps (mode : InterviewerMode) (client : Nat → Except (List Char) ChatResponse) :
    List (List Char) → List ChatMessage → Nat → SessionResult
  | [], msgs, counter => SessionResult.ok msgs counter
  | step :: rest, msgs, counter =>
    let qc := interviewerContent mode client step counter
    let msgs1 := msgs ++ [⟨Role.user, qc.1⟩]
    match requestContent client ("respondent").data 5 qc.2 with
    | RCResult.error e calls _ => SessionResult.error e calls
    | RCResult.ok a calls _ => runSteps mode client rest (msgs1 ++ [⟨Role.assistant, a⟩]) calls

/-- Model of `InterviewSession.run`: the step loop over the whole script. -/
def runSession (mode : InterviewerMode) (client : Nat → Except (List Char) ChatResponse)
    (script : List (List Char)) : SessionResult :=
  runSteps mode client script [] 0

/-- The client observes an empty-content completion at call `n`. -/
def yieldsEmpty (client : Nat → Except (List Char) ChatResponse) (n : Nat) : Prop :=
  ∃ resp, client n = Except.ok resp ∧ cleanedContent resp = []

/-- The sleep schedule of a fully failing attempt loop: linear `1000 × k`
delays, with no sleep after the final attempt. -/
def linSleeps : Nat → Nat → List Nat
  | 0, _ => []
  | r + 1, a => (if 0 < r then [1000 * (a + 1)] else []) ++ linSleeps r (a + 1)

/-- A response with no candidates, hence empty content. -/
def emptyResponse : ChatResponse := ⟨[]⟩

/-- A client whose every call succeeds with empty content. -/
def c7client : Nat → Except (List Char) ChatResponse :=
  fun _ => Except.ok emptyResponse

/-- A client whose every call succeeds with the text `hi`. -/
def c5client : Nat → Except (List Char) ChatResponse :=
  fun _ => Except.ok c1response

/-! ### BatchScheduler: `simulateInterviews` resumption
(src/src/types/config.ts, lines 994-1050)

Durable session storage is modelled as the list of parsed session records; a
persona record keeps the fields the scheduler consults. -/

/-- The fields of a persona that the scheduler consults. -/
structure Persona where
  id : List Char
  segmentId : List Char
deriving DecidableEq

/-- A persisted session record, as the resumption scan reads it. -/
structure StoredSession where
  personaId : List Char
deriving DecidableEq

/-- Model of `loadCompletedPersonaIds`: the persona ids of persisted sessions,
skipping falsy (empty) ids exactly as the truthiness check does. -/
def loadCompletedPersonaIds : List StoredSession → List (List Char)
  | [] => []
  | s :: rest =>
    (if s.personaId ≠ [] then [s.personaId] else []) ++ loadCompletedPersonaIds rest

/-- The pending filter of `simulateInterviews`: personas whose id is not in
the completed set. -/
def pendingPersonas (personas : List Persona) (completed : List (List Char)) : List Persona :=
  personas.filter (fun p => decide (p.id ∉ completed))

/-- Model of `simulateInterviews`' scheduling decision: the personas for which
a SessionRunner executes (one session is then written per executed persona). -/
def simulateInterviews (personas : List Persona) (stored : List StoredSession) : List Persona :=
  pendingPersonas personas (loadCompletedPersonaIds stored)

/-- Five personas used by the scheduler witness. -/
def c3personas : List Persona :=
  [⟨("p1").data, ("s").data⟩, ⟨("p2").data, ("s").data⟩, ⟨("p3").data, ("s").data⟩,
    ⟨("p4").data, ("s").data⟩, ⟨("p5").data, ("s").data⟩]

/-- Two persisted sessions used by the scheduler witness. -/
def c3stored : List StoredSession := [⟨("p1").data⟩, ⟨("p2").data⟩]

/-! ### Fallback model list: `normalizeModels` / `loadFallbackModels`
(src/src/utils/fallback-models.ts) -/

/-- The seen-set accumulator loop of `normalizeModels`: drop empty or
primary-equal trimmed entries and case-insensitive duplicates, keeping the
first occurrence with its trimmed original casing. -/
def nmGo (primary : Option (List Char)) (seen : List (List Char)) :
    List (List Char) → List (List Char)
  | [] => []
  | m :: rest =>
    if trimL m = [] ∨ primary = some (trimL m) then nmGo primary seen rest
    else if lcStr (trimL m) ∈ seen then nmGo primary seen rest
    else trimL m :: nmGo primary (lcStr (trimL m) :: seen) rest

/-- Model of `normalizeModels`. -/
def normalizeModels (models : List (List Char)) (primary : Option (List Char)) :
    List (List Char) :=
  nmGo primary [] models

/-- The built-in default fallback model list. -/
def defaultFallbackModels : List (List Char) :=
  [("mistralai/mistral-7b-instruct:free").data,
    ("deepseek/deepseek-r1-0528:free").data,
    ("meta-llama/llama-3.1-8b-instruct:free").data,
    ("google/gemma-2-9b-it:free").data,
    ("qwen/qwen-2.5-7b-instruct:free").data]

/-- First string of a JSON value, for the zod string schema. -/
def strOf : Json → Option (List Char)
  | Json.str s => some s
  | _ => none

/-- The zod `z.array(z.string().min(1))` element check: all elements must be
non-empty strings. -/
def allNonemptyStrs : List Json → Option (List (List Char))
  | [] => some []
  | e :: rest =>
    match strOf e with
    | some s => if s ≠ [] then (allNonemptyStrs rest).map (fun l => s :: l) else none
    | none => none

/-- Model of `ModelsArraySchema.safeParse`: a non-empty array of non-empty
strings. -/
def modelsArrayOf : Json → Option (List (List Char))
  | Json.arr [] => none
  | Json.arr es => allNonemptyStrs es
  | _ => none

/-- First value bound to a key in an object member list. -/
def objLookup : List (List Char × Json) → List Char → Option Json
  | [], _ => none
  | (k, v) :: rest, key => if k = key then some v else objLookup rest key

/-- Model of `ModelsConfigSchema.safeParse`: an object whose `models` member
satisfies the array schema. -/
def modelsConfigOf : Json → Option (List (List Char))
  | Json.obj ms =>
    (match objLookup ms (("models").data) with
     | some v => modelsArrayOf v
     | none => none)
  | _ => none

/-- The source tag of the loaded fallback list (`file` or `default`). -/
inductive FMSource where
  | fromFile
  | fromDefault
deriving DecidableEq

/-- Model of `loadFallbackModels`: the parsed configured file (`Except.error`
for an unreadable file or invalid JSON), validated against the list schema and
then the object schema; any failure falls back to the normalized built-in
default list. -/
def loadFallbackModels (fileContent : Except Unit Json) (primary : Option (List Char)) :
    List (List Char) × FMSource :=
  match fileContent with
  | Except.error _ => (normalizeModels defaultFallbackModels primary, FMSource.fromDefault)
  | Except.ok j =>
    match modelsArrayOf j with
    | some models => (normalizeModels models primary, FMSource.fromFile)
    | none =>
      match modelsConfigOf j with
      | some models => (normalizeModels models primary, FMSource.fromFile)
      | none => (normalizeModels defaultFallbackModels primary, FMSource.fromDefault)

/-! ### A model of the platform `JSON.parse`

Fuel-structural recursive-descent parser over the `Json` model.  It covers
the grammar the analysis pipeline exercises (whitespace, literals, integral
numbers, strings with single-character escapes, arrays, objects with
last-occurrence-wins duplicate keys); fractional/exponent numerals and
`\u` escapes are rejected rather than parsed. -/

/-- JSON grammar whitespace (space, tab, newline, carriage return). -/
def jsonWs (c : Char) : Bool := c = ' ' || c = '\t' || c = '\n' || c = '\r'

/-- Decoded value of a single-character string escape. -/
def escCharOf : Char → Option Char
  | '"' => some '"'
  | '\\' => some '\\'
  | '/' => some '/'
  | 'b' => some '\x08'
  | 'f' => some '\x0c'
  | 'n' => some '\n'
  | 'r' => some '\r'
  | 't' => some '\t'
  | _ => none

/-- Value of a hexadecimal digit character, JSON-style (both cases). -/
def hexVal (c : Char) : Option Nat :=
  if c.isDigit then some (c.toNat - 48)
  else if 'a' ≤ c ∧ c ≤ 'f' then some (c.toNat - 87)
  else if 'A' ≤ c ∧ c ≤ 'F' then some (c.toNat - 55)
  else none

/-- String-literal body up to the closing quote, decoding single-character
and `\uXXXX` escapes (surrogate code units, which Lean characters cannot
carry, are rejected; the serializer never emits them). -/
def parseStringBody : List Char → Option (List Char × List Char)
  | [] => none
  | c :: rest =>
    if c = '"' then some ([], rest)
    else if c = '\\' then
      match rest with
      | [] => none
      | e :: rest2 =>
        if e = 'u' then
          match rest2 with
          | h1 :: h2 :: h3 :: h4 :: rest3 =>
            (hexVal h1).bind (fun a =>
              (hexVal h2).bind (fun b =>
                (hexVal h3).bind (fun c2 =>
                  (hexVal h4).bind (fun d =>
                    if 0xD800 ≤ ((a * 16 + b) * 16 + c2) * 16 + d ∧
                        ((a * 16 + b) * 16 + c2) * 16 + d < 0xE000 then none
                    else
                      (parseStringBody rest3).map (fun p =>
                        (Char.ofNat (((a * 16 + b) * 16 + c2) * 16 + d) :: p.1, p.2))))))
          | _ => none
        else
          (escCharOf e).bind (fun c2 =>
            (parseStringBody rest2).map (fun p => (c2 :: p.1, p.2)))
    else if c.toNat < 0x20 then none
    else (parseStringBody rest).map (fun p => (c :: p.1, p.2))

/-- Leading decimal digits and the remainder. -/
def takeDigits : List Char → List Char × List Char
  | [] => ([], [])
  | c :: rest =>
    if c.isDigit then
      match takeDigits rest with
      | (ds, r) => (c :: ds, r)
    else ([], c :: rest)

/-- Numeric value of a digit run. -/
def digitsVal (ds : List Char) : Nat :=
  ds.foldl (fun acc c => acc * 10 + (c.toNat - ('0').toNat)) 0

/-- Whether the remainder continues a numeral in a form the model rejects
(fraction or exponent). -/
def isNumCont : List Char → Bool
  | c :: _ => c = '.' || c = 'e' || c = 'E'
  | [] => false

/-- Insert a member into an object, overwriting an existing binding in place
as JavaScript property assignment does. -/
def objInsert (ms : List (List Char × Json)) (k : List Char) (v : Json) :
    List (List Char × Json) :=
  if ms.any (fun kv => kv.1 = k) then
    ms.map (fun kv => if kv.1 = k then (k, v) else kv)
  else ms ++ [(k, v)]

/-- Remainder after an expected literal word. -/
def dropLit (lit cs : List Char) : Option (List Char) :=
  if cs.take lit.length = lit then some (cs.drop lit.length) else none

mutual

/-- One JSON value at the head of the input (fuel-structural), dispatching on
the first character as the grammar does. -/
def parseJsonValue : Nat → List Char → Option (Json × List Char)
  | 0, _ => none
  | fuel + 1, cs =>
    match cs with
    | [] => none
    | c :: rest =>
      if c = 'n' then
        (dropLit ('u' :: 'l' :: 'l' :: []) rest).map (fun r => (Json.null, r))
      else if c = 't' then
        (dropLit ('r' :: 'u' :: 'e' :: []) rest).map (fun r => (Json.bool true, r))
      else if c = 'f' then
        (dropLit ('a' :: 'l' :: 's' :: 'e' :: []) rest).map (fun r => (Json.bool false, r))
      else if c = '"' then
        (parseStringBody rest).map (fun p => (Json.str p.1, p.2))
      else if c = '[' then
        (if ((rest.dropWhile jsonWs).head? = some ']') then
          some (Json.arr [], (rest.dropWhile jsonWs).tail)
        else
          (parseArrayItems fuel (rest.dropWhile jsonWs)).map (fun p => (Json.arr p.1, p.2)))
      else if c = '\x7b' then
        (if ((rest.dropWhile jsonWs).head? = some '\x7d') then
          some (Json.obj [], (rest.dropWhile jsonWs).tail)
        else
          (parseObjMembers fuel (rest.dropWhile jsonWs) []).map (fun p => (Json.obj p.1, p.2)))
      else if c = '-' then
        (if (takeDigits rest).1 = [] then none
        else if isNumCont (takeDigits rest).2 then none
        else some (Json.num (-(digitsVal (takeDigits rest).1 : Int)), (takeDigits rest).2))
      else if c.isDigit then
        (if isNumCont (takeDigits (c :: rest)).2 then none
        else some (Json.num ((digitsVal (takeDigits (c :: rest)).1 : Nat) : Int),
          (takeDigits (c :: rest)).2))
      else none

/-- Comma-separated array items up to the closing bracket (fuel-structural). -/
def parseArrayItems : Nat → List Char → Option (List Json × List Char)
  | 0, _ => none
  | fuel + 1, cs =>
    (parseJsonValue fuel (cs.dropWhile jsonWs)).bind (fun p =>
      if ((p.2.dropWhile jsonWs).head? = some ',') then
        (parseArrayItems fuel (p.2.dropWhile jsonWs).tail).map (fun q => (p.1 :: q.1, q.2))
      else if ((p.2.dropWhile jsonWs).head? = some ']') then
        some ([p.1], (p.2.dropWhile jsonWs).tail)
      else none)

/-- Comma-separated object members up to the closing brace, later duplicate
keys overwriting earlier ones (fuel-structural). -/
def parseObjMembers : Nat → List Char → List (List Char × Json) →
    Option (List (List Char × Json) × List Char)
  | 0, _, _ => none
  | fuel + 1, cs, acc =>
    if ((cs.dropWhile jsonWs).head? = some '"') then
      (parseStringBody (cs.dropWhile jsonWs).tail).bind (fun kp =>
        if ((kp.2.dropWhile jsonWs).head? = some ':') then
          (parseJsonValue fuel (((kp.2.dropWhile jsonWs).tail).dropWhile jsonWs)).bind
            (fun vp =>
              if ((vp.2.dropWhile jsonWs).head? = some ',') then
                parseObjMembers fuel (vp.2.dropWhile jsonWs).tail (objInsert acc kp.1 vp.1)
              else if ((vp.2.dropWhile jsonWs).head? = some '\x7d') then
                some (objInsert acc kp.1 vp.1, (vp.2.dropWhile jsonWs).tail)
              else none)
        else none)
    else none

end

/-- Duplicate-freedom of object keys (later keys would overwrite earlier ones
on parsing, so only duplicate-free objects round-trip). -/
def nodupKeysB : List (List Char × Json) → Bool
  | [] => true
  | kv :: rest => !(rest.any (fun kv2 => kv2.1 = kv.1)) && nodupKeysB rest

mutual

/-- Well-formedness of a JSON value: object member lists are duplicate-free
at every level.  Every JavaScript value serialized by the platform satisfies
this, since object properties are unique. -/
def jsonWF : Json → Bool
  | Json.null => true
  | Json.bool _ => true
  | Json.num _ => true
  | Json.str _ => true
  | Json.arr es => jsonWFList es
  | Json.obj ms => nodupKeysB ms && jsonWFMembers ms

/-- Well-formedness of array elements. -/
def jsonWFList : List Json → Bool
  | [] => true
  | e :: es => jsonWF e && jsonWFList es

/-- Well-formedness of object member values. -/
def jsonWFMembers : List (List Char × Json) → Bool
  | [] => true
  | kv :: ms => jsonWF kv.2 && jsonWFMembers ms

end

mutual

/-- Parsing-fuel cost of a value (bounded by the serialization length). -/
def sizeJ : Json → Nat
  | Json.null => 1
  | Json.bool _ => 1
  | Json.num _ => 1
  | Json.str _ => 1
  | Json.arr es => 1 + sizeL es
  | Json.obj ms => 1 + sizeM ms

/-- Parsing-fuel cost of array elements. -/
def sizeL : List Json → Nat
  | [] => 0
  | e :: es => sizeJ e + sizeL es + 1

/-- Parsing-fuel cost of object members. -/
def sizeM : List (List Char × Json) → Nat
  | [] => 0
  | kv :: ms => sizeJ kv.2 + sizeM ms + 1

end

/-- The characters that can start a serialized JSON value. -/
def goodHead (c : Char) : Bool :=
  c = 'n' || c = 't' || c = 'f' || c = '-' || c.isDigit || c = '"' || c = '[' || c = '\x7b'

/-- A suffix that cannot extend a numeric token (empty, or headed by a
non-digit that is not a fraction or exponent marker). -/
def numBoundary : List Char → Bool
  | [] => true
  | c :: _ => !(c.isDigit || c = '.' || c = 'e' || c = 'E')

/-- Model of the platform `JSON.parse`: a single JSON value surrounded only by
whitespace (the fuel bound is generous: each nesting level costs two units). -/
def jsonParse (cs : List Char) : Option Json :=
  (parseJsonValue (2 * cs.length + 2) (cs.dropWhile jsonWs)).bind (fun p =>
    if p.2.dropWhile jsonWs = [] then some p.1 else none)

/-- Model of `parseJsonFromText` (src/unnamed/part_003): direct parse, else
parse of the extracted block. -/
def parseJsonFromText (cs : List Char) : Option Json :=
  match jsonParse cs with
  | some v => some v
  | none =>
    match extractJsonBlock cs with
    | none => none
    | some ex => jsonParse ex

/-! ### FallbackCascade: `analyzeInterviews` (src/src/types/config.ts,
lines 211-665)

The completion transport is modelled per model by an oracle giving the
responses of the up-to-3 content attempts and of the single reminder request;
the zod row schema, the loose line regex and the value sanitizer are modelled
definitionally. -/

/-- One configured analytics metric (`IAnalyticsMetric`). -/
structure Metric where
  key : List Char
  description : List Char
deriving DecidableEq

/-- The zod analysis value schema: string, number and boolean values coerced
to strings, all else rejected. -/
def analysisValueOf : Json → Option (List Char)
  | Json.str s => some s
  | Json.num n => some (intChars n)
  | Json.bool true => some ('t' :: 'r' :: 'u' :: 'e' :: [])
  | Json.bool false => some ('f' :: 'a' :: 'l' :: 's' :: 'e' :: [])
  | _ => none

/-- Object members as coerced string fields (the record schema body). -/
def rowFields : List (List Char × Json) → Option (List (List Char × List Char))
  | [] => some []
  | (k, v) :: rest =>
    match analysisValueOf v with
    | some s => (rowFields rest).map (fun l => (k, s) :: l)
    | none => none

/-- Model of `AnalysisRowSchema.safeParse`: a flat string-valued object. -/
def analysisRowOf : Json → Option (List (List Char × List Char))
  | Json.obj ms => rowFields ms
  | _ => none

/-- First value bound to a key in a parsed row. -/
def rowLookup : List (List Char × List Char) → List Char → Option (List Char)
  | [], _ => none
  | (k, v) :: rest, key => if k = key then some v else rowLookup rest key

/-- Model of `normalizeRow`: exactly the configured keys, missing ones
defaulted to the empty string, unknown ones dropped. -/
def normalizeRow (parsed : List (List Char × List Char)) (schema : List Metric) :
    List (List Char × List Char) :=
  schema.map (fun m => (m.key, (rowLookup parsed m.key).getD []))

/-- Model of `parseAnalysisRow`: sanitize, strict-parse JSON (directly or from
an extracted block), validate as a flat string row, normalize to the schema. -/
def parseAnalysisRow (content : List Char) (schema : List Metric) :
    Option (List (List Char × List Char)) :=
  match parseJsonFromText (sanitizeContent content) with
  | none => none
  | some j => (analysisRowOf j).map (fun parsed => normalizeRow parsed schema)

/-- The separator class of the loose line regex: hyphen, em dash, colon,
equals (the en dash is absent from the code's character class). -/
def isSep (c : Char) : Bool := c = '-' || c = '—' || c = ':' || c = '='

/-- JavaScript line terminators, which `.` does not match. -/
def isLineTerm (c : Char) : Bool := c = '\n' || c = '\r' || c = ' ' || c = ' '

/-- The `\s*(.+)` tail of the loose regex after the separator: skip maximal
whitespace and capture greedily up to a line terminator, backtracking into the
whitespace run when nothing but whitespace remains. -/
def looseValue (rest : List Char) : Option (List Char) :=
  match rest.dropWhile isJsWs with
  | _ :: _ => some ((rest.dropWhile isJsWs).takeWhile (fun x => !(isLineTerm x)))
  | [] =>
    match (rest.takeWhile isJsWs).reverse.dropWhile isLineTerm with
    | c :: _ => some [c]
    | [] => none

/-- One attempted match of `key\s*[-—:=]\s*(.+)` at a fixed start position
(case-insensitive on the key). -/
def looseMatchAt (key cs : List Char) : Option (List Char) :=
  if (cs.take key.length).map lcChar = lcStr key then
    match (cs.drop key.length).dropWhile isJsWs with
    | sep :: rest => if isSep sep then looseValue rest else none
    | [] => none
  else none

/-- Leftmost match of the loose line regex. -/
def looseScan (key : List Char) : List Char → Option (List Char)
  | [] => looseMatchAt key []
  | c :: rest =>
    match looseMatchAt key (c :: rest) with
    | some v => some v
    | none => looseScan key rest

/-- Model of `parseLooseAnalysisRow`: per configured key, the trimmed captured
value of the loose line regex on the sanitized content, defaulting empty. -/
def parseLooseAnalysisRow (content : List Char) (schema : List Metric) :
    List (List Char × List Char) :=
  schema.map (fun m => (m.key,
    match looseScan m.key (sanitizeContent content) with
    | some v => trimL v
    | none => []))

/-- Model of `hasAnyValue`: some field value is non-empty after trimming. -/
def hasAnyValue (row : List (List Char × List Char)) : Bool :=
  row.any (fun kv => trimL kv.2 ≠ [])

/-- Whitespace runs collapsed to single spaces (`replace(/\s+/g, " ")`). -/
def collapseWs (cs : List Char) : List Char :=
  cs.foldr
    (fun c acc =>
      if isJsWs c then
        match acc with
        | ' ' :: _ => acc
        | _ => ' ' :: acc
      else c :: acc) []

/-- Strip one anchored prefix pattern `^word[^:]*:\s*` (case-insensitive). -/
def stripAnchoredPat (word cs : List Char) : List Char :=
  if (cs.take word.length).map lcChar = word then
    match (cs.drop word.length).dropWhile (fun c => !(c = ':')) with
    | ':' :: rest => rest.dropWhile isJsWs
    | _ => cs
  else cs

/-- The five anchored Russian prefix patterns of `sanitizeValue`, applied in
order. -/
def stripRuPats (cs : List Char) : List Char :=
  stripAnchoredPat (("основные риски").data)
    (stripAnchoredPat (("критичные функции").data)
      (stripAnchoredPat (("в диалоге").data)
        (stripAnchoredPat (("из ответов").data)
          (stripAnchoredPat (("пользователь").data) cs))))

/-- The text after the last `->`, when one occurs. -/
def afterLastArrow : List Char → Option (List Char)
  | [] => none
  | '-' :: '>' :: rest =>
    (match afterLastArrow rest with
     | some r => some r
     | none => some rest)
  | _ :: rest => afterLastArrow rest

/-- The text after the last `:`, when one occurs. -/
def afterLastColon : List Char → Option (List Char)
  | [] => none
  | ':' :: rest =>
    (match afterLastColon rest with
     | some r => some r
     | none => some rest)
  | _ :: rest => afterLastColon rest

/-- First quoted fragment of 3 to 160 non-quote characters. -/
def quoteGrab (openC closeC : Char) : List Char → Option (List Char)
  | [] => none
  | c :: rest =>
    if c = openC then
      (if 3 ≤ (rest.takeWhile (fun x => !(x = closeC))).length ∧
          (rest.takeWhile (fun x => !(x = closeC))).length ≤ 160 ∧
          rest.drop (rest.takeWhile (fun x => !(x = closeC))).length ≠ [] then
        some (rest.takeWhile (fun x => !(x = closeC)))
      else quoteGrab openC closeC rest)
    else quoteGrab openC closeC rest

/-- Model of `sanitizeValue`: collapse whitespace and trim, strip the anchored
prefixes, keep the tail after `->`, then after `:` (if shorter and non-empty),
then the first sentence (if shorter and non-empty), then a quoted fragment. -/
def sanitizeValue (value : List Char) : List Char :=
  let c1 := trimL (collapseWs value)
  let c2 := stripRuPats c1
  let c3 := match afterLastArrow c2 with
    | some r => trimL r
    | none => c2
  let c4 := match afterLastColon c3 with
    | some tailSeg =>
      if trimL tailSeg ≠ [] ∧ (trimL tailSeg).length < c3.length then trimL tailSeg else c3
    | none => c3
  let c5 :=
    if c4.contains '.' then
      (if trimL (c4.takeWhile (fun x => !(x = '.'))) ≠ [] ∧
          (trimL (c4.takeWhile (fun x => !(x = '.')))).length < c4.length then
        trimL (c4.takeWhile (fun x => !(x = '.')))
      else c4)
    else c4
  match quoteGrab '"' '"' c5 with
  | some r => trimL r
  | none =>
    match quoteGrab '«' '»' c5 with
    | some r => trimL r
    | none => c5

/-- An analysis record: the identity fields plus the configured field values
(the code spreads them into one object; the model keeps them separate, as the
CSV writer does with its distinct `personaId`/`segmentId` columns). -/
structure AnalysisRow where
  personaId : List Char
  segmentId : List Char
  fields : List (List Char × List Char)
deriving DecidableEq

/-- Model of `enrichRow`: sanitize every field value and attach the session's
identity fields. -/
def enrichRow (row : List (List Char × List Char)) (personaId segmentId : List Char) :
    AnalysisRow :=
  ⟨personaId, segmentId, row.map (fun kv => (kv.1, sanitizeValue kv.2))⟩

/-- Per-model transport oracle: the responses of the up-to-3 content attempts
and of the single reminder request. -/
structure ModelOracle where
  attempts : Nat → ChatResponse
  reminder : ChatResponse

/-- Model of `requestAnalysisContent`: the first non-empty extracted text of
up to 3 attempts, else empty. -/
def requestAnalysisContent (attempts : Nat → ChatResponse) : List Char :=
  if extractMessageText (attempts 0).choices.head? ≠ [] then
    extractMessageText (attempts 0).choices.head?
  else if extractMessageText (attempts 1).choices.head? ≠ [] then
    extractMessageText (attempts 1).choices.head?
  else if extractMessageText (attempts 2).choices.head? ≠ [] then
    extractMessageText (attempts 2).choices.head?
  else []

/-- One model's trial inside the analysis cascade: the resolved row (if any)
and whether the reminder request was issued.  Mirrors the loop body of
`analyzeInterviews`: strict parse, loose fallback on the same content, then
the reminder request followed by strict and loose parses of its output. -/
def modelStep (o : ModelOracle) (schema : List Metric) :
    Option (List (List Char × List Char)) × Bool :=
  if requestAnalysisContent o.attempts = [] then (none, false)
  else
    match parseAnalysisRow (requestAnalysisContent o.attempts) schema with
    | some row => (some row, false)
    | none =>
      if hasAnyValue (parseLooseAnalysisRow (requestAnalysisContent o.attempts) schema) then
        (some (parseLooseAnalysisRow (requestAnalysisContent o.attempts) schema), false)
      else
        if extractMessageText o.reminder.choices.head? = [] then (none, true)
        else
          match parseAnalysisRow (extractMessageText o.reminder.choices.head?) schema with
          | some row => (some row, true)
          | none =>
            if hasAnyValue
                (parseLooseAnalysisRow (extractMessageText o.reminder.choices.head?) schema) then
              (some (parseLooseAnalysisRow (extractMessageText o.reminder.choices.head?) schema),
                true)
            else (none, true)

/-- The model iteration of the cascade: the first model that yields a row. -/
def cascadeResolve (oracles : List ModelOracle) (schema : List Metric) :
    Option (List (List Char × List Char)) :=
  match oracles with
  | [] => none
  | o :: rest =>
    match (modelStep o schema).1 with
    | some row => some row
    | none => cascadeResolve rest schema

/-- Model of the per-session result of `analyzeInterviews`: the resolved row,
or the empty row when every model and technique failed, enriched with the
session identity. -/
def analyzeSession (oracles : List ModelOracle) (schema : List Metric)
    (personaId segmentId : List Char) : AnalysisRow :=
  match cascadeResolve oracles schema with
  | some row => enrichRow row personaId segmentId
  | none => enrichRow (normalizeRow [] schema) personaId segmentId

/-- The configured schema of the analysis fixtures. -/
def c4schema : List Metric := [⟨("pain").data, ("pain points").data⟩]

/-- A response whose content is the loose-parsable line `pain: high`. -/
def c4resp : ChatResponse := ⟨[⟨some (("pain: high").data), none⟩]⟩

/-- Oracle for the C4 counterexample: first response loose-parsable prose. -/
def c4oracle : ModelOracle := ⟨fun _ => c4resp, emptyResponse⟩

/-- A response with unusable prose content. -/
def c4zzz : ChatResponse := ⟨[⟨some (('z' :: 'z' :: 'z' :: [])), none⟩]⟩

/-- A response whose content is valid JSON for the configured field. -/
def c4json : ChatResponse := ⟨[⟨some (("\x7b\"pain\":\"ok\"\x7d").data), none⟩]⟩

/-- Oracle for the C4 witness: unusable first content, JSON reminder output. -/
def c4wOracle : ModelOracle := ⟨fun _ => c4zzz, c4json⟩

/-- Two-field schema for the C6 witness. -/
def c6schema : List Metric :=
  [⟨("pain").data, ("pain points").data⟩, ⟨("freq").data, ("frequency").data⟩]

/-- Oracle whose every response is empty, failing all techniques. -/
def c6emptyOracle : ModelOracle := ⟨fun _ => emptyResponse, emptyResponse⟩

/-- The digit characters emitted by `digitChar` are never whitespace. -/
theorem digitChar_not_ws (k : Nat) : isJsWs (digitChar k) = false := by
  unfold digitChar
  split <;> decide

/-- With positive fuel, the digit printer emits at least one character. -/
theorem natDigitsAux_ne_nil (fuel n : Nat) (h : fuel ≠ 0) : natDigitsAux fuel n ≠ [] := by
  cases fuel with
  | zero => exact absurd rfl h
  | succ f =>
    unfold natDigitsAux
    split
    · simp
    · simp

/-- The digit printer's output is empty or starts with a digit character. -/
theorem natDigitsAux_shape (fuel : Nat) : ∀ n : Nat,
    natDigitsAux fuel n = [] ∨ ∃ k rest, k < 10 ∧ natDigitsAux fuel n = digitChar k :: rest := by
  induction fuel with
  | zero => intro n; exact Or.inl rfl
  | succ f ih =>
    intro n
    by_cases h : n < 10
    · exact Or.inr ⟨n, [], h, by unfold natDigitsAux; rw [if_pos h]⟩
    · rcases ih (n / 10) with hnil | ⟨k, rest, hk, heq⟩
      · refine Or.inr ⟨n % 10, [], Nat.mod_lt _ (by norm_num), ?_⟩
        unfold natDigitsAux
        rw [if_neg h, hnil]
        rfl
      · refine Or.inr ⟨k, rest ++ [digitChar (n % 10)], hk, ?_⟩
        unfold natDigitsAux
        rw [if_neg h, heq]
        rfl

/-- With positive fuel, the digit printer's output ends with a digit character. -/
theorem natDigitsAux_last (fuel n : Nat) (h : fuel ≠ 0) :
    ∃ init k, k < 10 ∧ natDigitsAux fuel n = init ++ [digitChar k] := by
  cases fuel with
  | zero => exact absurd rfl h
  | succ f =>
    by_cases h10 : n < 10
    · exact ⟨[], n, h10, by unfold natDigitsAux; rw [if_pos h10]; rfl⟩
    · refine ⟨natDigitsAux f (n / 10), n % 10, Nat.mod_lt _ (by norm_num), ?_⟩
      conv_lhs => rw [natDigitsAux]
      rw [if_neg h10]

/-- Serialized JSON starts with a non-whitespace character. -/
theorem stringify_head (v : Json) : ∃ c rest, stringify v = c :: rest ∧ isJsWs c = false := by
  cases v with
  | null => exact ⟨'n', ['u', 'l', 'l'], by simp [stringify], by decide⟩
  | bool b =>
    cases b with
    | true => exact ⟨'t', ['r', 'u', 'e'], by simp [stringify], by decide⟩
    | false => exact ⟨'f', ['a', 'l', 's', 'e'], by simp [stringify], by decide⟩
  | num n =>
    cases n with
    | ofNat m =>
      rcases natDigitsAux_shape (m + 1) m with hnil | ⟨k, rest, hk, heq⟩
      · exact absurd hnil (natDigitsAux_ne_nil _ _ (Nat.succ_ne_zero m))
      · exact ⟨digitChar k, rest, by simp [stringify, intChars, natDigits, heq],
          digitChar_not_ws k⟩
    | negSucc m => exact ⟨'-', natDigits (m + 1), by simp [stringify, intChars], by decide⟩
  | str s => exact ⟨'"', escape s ++ ['"'], by simp [stringify], by decide⟩
  | arr es => exact ⟨'[', stringifyArr es ++ [']'], by simp [stringify], by decide⟩
  | obj ms => exact ⟨'\x7b', stringifyObj ms ++ ['\x7d'], by simp [stringify], by decide⟩

/-- Serialized JSON ends with a non-whitespace character. -/
theorem stringify_last (v : Json) : ∃ init c, stringify v = init ++ [c] ∧ isJsWs c = false := by
  cases v with
  | null => exact ⟨['n', 'u', 'l'], 'l', by simp [stringify], by decide⟩
  | bool b =>
    cases b with
    | true => exact ⟨['t', 'r', 'u'], 'e', by simp [stringify], by decide⟩
    | false => exact ⟨['f', 'a', 'l', 's'], 'e', by simp [stringify], by decide⟩
  | num n =>
    cases n with
    | ofNat m =>
      rcases natDigitsAux_last (m + 1) m (Nat.succ_ne_zero m) with ⟨init, k, hk, heq⟩
      exact ⟨init, digitChar k, by simp [stringify, intChars, natDigits, heq],
        digitChar_not_ws k⟩
    | negSucc m =>
      rcases natDigitsAux_last (m + 2) (m + 1) (Nat.succ_ne_zero _) with ⟨init, k, hk, heq⟩
      exact ⟨'-' :: init, digitChar k, by simp [stringify, intChars, natDigits, heq],
        digitChar_not_ws k⟩
  | str s => exact ⟨'"' :: escape s, '"', by simp [stringify], by decide⟩
  | arr es => exact ⟨'[' :: stringifyArr es, ']', by simp [stringify], by decide⟩
  | obj ms => exact ⟨'\x7b' :: stringifyObj ms, '\x7d', by simp [stringify], by decide⟩

/-- A text without a triple backtick, followed by a newline and a closing
fence, is consumed up to exactly that closing fence. -/
theorem takeUntilFence_closes (t : List Char) : ∀ s : List Char, hasTriple s = false →
    takeUntilFence (s ++ '\n' :: '`' :: '`' :: '`' :: t) = some (s ++ ['\n']) := by
  intro s
  induction s with
  | nil => intro _; simp [takeUntilFence, isTripleAt]
  | cons c s' ih =>
    intro h
    simp only [hasTriple, Bool.or_eq_false_iff] at h
    obtain ⟨h1, h2⟩ := h
    have h3 : isTripleAt (c :: (s' ++ '\n' :: '`' :: '`' :: '`' :: t)) = false := by
      rcases s' with _ | ⟨d, s''⟩
      · simp [isTripleAt]
      · rcases s'' with _ | ⟨e, rest⟩
        · simp [isTripleAt]
        · simpa [isTripleAt] using h1
    simp only [List.cons_append, takeUntilFence, List.append_eq]
    rw [h3]
    simp [ih h2]

/-- Trimming a body with non-whitespace first and last characters plus a
trailing newline recovers the body. -/
theorem trimL_append_nl (c d : Char) (r i : List Char) (hcd : c :: r = i ++ [d])
    (hc : isJsWs c = false) (hd : isJsWs d = false) :
    trimL ((c :: r) ++ ['\n']) = c :: r := by
  have hrev : (c :: r).reverse = d :: i.reverse := by rw [hcd]; simp
  unfold trimL
  have h1 : List.dropWhile isJsWs (c :: (r ++ ['\n'])) = c :: (r ++ ['\n']) := by
    rw [List.dropWhile_cons]
    simp [hc]
  have h2 : ((c :: r) ++ ['\n']).reverse = '\n' :: d :: i.reverse := by
    rw [List.reverse_append, hrev]
    rfl
  have h3 : List.dropWhile isJsWs ('\n' :: d :: i.reverse) = d :: i.reverse := by
    rw [List.dropWhile_cons]
    simp only [show isJsWs '\n' = true from by decide, if_pos]
    rw [List.dropWhile_cons]
    simp [hd]
  rw [show (c :: r) ++ ['\n'] = c :: (r ++ ['\n']) from rfl, h1,
    show c :: (r ++ ['\n']) = (c :: r) ++ ['\n'] from rfl, h2, h3, ← hrev, List.reverse_reverse]

/-- Digit characters printed by the digit printer are decimal digits. -/
theorem digitChar_isDigit (k : Nat) (hk : k < 10) : (digitChar k).isDigit = true := by
  interval_cases k <;> decide

/-- Numeric value of a printed digit character. -/
theorem digitChar_toNat (k : Nat) (hk : k < 10) : (digitChar k).toNat = 48 + k := by
  interval_cases k <;> decide

/-- A decimal digit is none of the structural characters of the JSON grammar
and is not whitespace. -/
theorem isDigit_not_special (c : Char) (h : c.isDigit = true) :
    jsonWs c = false ∧ isJsWs c = false ∧ c ≠ 'n' ∧ c ≠ 't' ∧ c ≠ 'f' ∧ c ≠ '"' ∧
      c ≠ '[' ∧ c ≠ '\x7b' ∧ c ≠ '-' ∧ c ≠ ']' ∧ c ≠ '\x7d' ∧ c ≠ ',' := by
  have hne : ∀ d : Char, d.isDigit = false → c ≠ d := by
    intro d hd hc
    subst hc
    rw [h] at hd
    exact Bool.noConfusion hd
  refine ⟨?_, ?_, hne 'n' (by decide), hne 't' (by decide), hne 'f' (by decide),
    hne '"' (by decide), hne '[' (by decide), hne '\x7b' (by decide), hne '-' (by decide),
    hne ']' (by decide), hne '\x7d' (by decide), hne ',' (by decide)⟩
  · simp only [jsonWs, Bool.or_eq_false_iff, decide_eq_false_iff_not]
    exact ⟨⟨⟨hne ' ' (by decide), hne '\t' (by decide)⟩, hne '\n' (by decide)⟩,
      hne '\r' (by decide)⟩
  · simp only [isJsWs, Bool.or_eq_false_iff, decide_eq_false_iff_not]
    exact ⟨⟨⟨⟨⟨⟨hne ' ' (by decide), hne '\t' (by decide)⟩, hne '\n' (by decide)⟩,
      hne '\r' (by decide)⟩, hne '\x0b' (by decide)⟩, hne '\x0c' (by decide)⟩,
      hne '\u00A0' (by decide)⟩

/-- A serialized-value head character is not whitespace and closes nothing. -/
theorem goodHead_facts (c : Char) (h : goodHead c = true) :
    jsonWs c = false ∧ isJsWs c = false ∧ c ≠ ']' ∧ c ≠ '\x7d' := by
  simp only [goodHead, Bool.or_eq_true, decide_eq_true_eq] at h
  rcases h with ⟨⟨⟨⟨⟨⟨h | h⟩ | h⟩ | h⟩ | h⟩ | h⟩ | h⟩ | h
  all_goals first
    | (subst h; exact ⟨by decide, by decide, by decide, by decide⟩)
    | (obtain ⟨h1, h2, _, _, _, _, _, _, _, h3, h4, _⟩ := isDigit_not_special c h
       exact ⟨h1, h2, h3, h4⟩)

/-- Dropping an expected literal prefix succeeds exactly on it. -/
theorem dropLit_self (lit rest : List Char) : dropLit lit (lit ++ rest) = some rest := by
  simp [dropLit, List.take_left, List.drop_left]

/-- Leading whitespace removal keeps a list headed by a non-whitespace
character. -/
theorem dropWhile_jsonWs_cons (c : Char) (t : List Char) (h : jsonWs c = false) :
    (c :: t).dropWhile jsonWs = c :: t := by
  rw [List.dropWhile_cons]
  simp [h]

/-- A numeric boundary never continues a numeral. -/
theorem numBoundary_isNumCont (rest : List Char) (h : numBoundary rest = true) :
    isNumCont rest = false := by
  cases rest with
  | nil => rfl
  | cons c t =>
    simp only [numBoundary, Bool.not_eq_true', Bool.or_eq_false_iff,
      decide_eq_false_iff_not] at h
    simp only [isNumCont, Bool.or_eq_false_iff, decide_eq_false_iff_not]
    exact ⟨⟨h.1.1.2, h.1.2⟩, h.2⟩

/-- A digit run followed by a numeric boundary is taken exactly. -/
theorem takeDigits_append (ds rest : List Char) (hd : ∀ c ∈ ds, c.isDigit = true)
    (hb : numBoundary rest = true) : takeDigits (ds ++ rest) = (ds, rest) := by
  induction ds with
  | nil =>
    cases rest with
    | nil => rfl
    | cons c t =>
      simp only [numBoundary, Bool.not_eq_true', Bool.or_eq_false_iff] at hb
      simp [takeDigits, hb.1.1]
  | cons d ds' ih =>
    have hdd : d.isDigit = true := hd d (List.mem_cons_self _ _)
    rw [List.cons_append, takeDigits, if_pos hdd,
      ih (fun c hc => hd c (List.mem_cons_of_mem _ hc))]

/-- Value of a digit run extended by one digit. -/
theorem digitsVal_append (ds : List Char) (d : Char) :
    digitsVal (ds ++ [d]) = digitsVal ds * 10 + (d.toNat - ('0').toNat) := by
  simp [digitsVal, List.foldl_append]

/-- The digit printer emits decimal digits whose value is the printed number. -/
theorem natDigitsAux_spec (fuel : Nat) : ∀ n : Nat, n < fuel →
    (∀ c ∈ natDigitsAux fuel n, c.isDigit = true) ∧ digitsVal (natDigitsAux fuel n) = n := by
  induction fuel with
  | zero => intro n hn; omega
  | succ f ih =>
    intro n hn
    by_cases h10 : n < 10
    · constructor
      · intro c hc
        rw [natDigitsAux, if_pos h10] at hc
        simp at hc
        subst hc
        exact digitChar_isDigit n h10
      · rw [natDigitsAux, if_pos h10]
        have := digitChar_toNat n h10
        simp [digitsVal, this]
    · have hdiv : n / 10 < f := by
        have := Nat.div_lt_self (by omega : 0 < n) (by norm_num : 1 < 10)
        omega
      obtain ⟨ihd, ihv⟩ := ih (n / 10) hdiv
      constructor
      · intro c hc
        rw [natDigitsAux, if_neg h10] at hc
        rcases List.mem_append.mp hc with h | h
        · exact ihd c h
        · simp at h
          subst h
          exact digitChar_isDigit (n % 10) (Nat.mod_lt _ (by norm_num))
      · rw [natDigitsAux, if_neg h10, digitsVal_append, ihv,
          digitChar_toNat (n % 10) (Nat.mod_lt _ (by norm_num)),
          show ('0').toNat = 48 from rfl]
        have := Nat.div_add_mod n 10
        omega

/-- The decimal printer at its standard fuel: digits only, value preserved,
non-empty. -/
theorem natDigits_spec (m : Nat) :
    (∀ c ∈ natDigits m, c.isDigit = true) ∧ digitsVal (natDigits m) = m ∧ natDigits m ≠ [] := by
  obtain ⟨h1, h2⟩ := natDigitsAux_spec (m + 1) m (by omega)
  exact ⟨h1, h2, natDigitsAux_ne_nil _ _ (by omega)⟩

/-- Hexadecimal printing and reading are inverse below 16. -/
theorem hexVal_hexChar (x : Nat) (hx : x < 16) : hexVal (hexChar x) = some x := by
  interval_cases x <;> decide

/-- Inserting a fresh key appends the member. -/
theorem objInsert_append (acc : List (List Char × Json)) (k : List Char) (v : Json)
    (h : ∀ kv ∈ acc, kv.1 ≠ k) : objInsert acc k v = acc ++ [(k, v)] := by
  rw [objInsert, if_neg]
  intro hc
  simp only [List.any_eq_true, decide_eq_true_eq] at hc
  obtain ⟨kv, hkv, he⟩ := hc
  exact h kv hkv he

/-- Serialized JSON starts with a value-head character. -/
theorem stringify_head_good (v : Json) : ∃ c r, stringify v = c :: r ∧ goodHead c = true := by
  cases v with
  | null => exact ⟨'n', ['u', 'l', 'l'], by simp [stringify], by decide⟩
  | bool b =>
    cases b with
    | true => exact ⟨'t', ['r', 'u', 'e'], by simp [stringify], by decide⟩
    | false => exact ⟨'f', ['a', 'l', 's', 'e'], by simp [stringify], by decide⟩
  | num n =>
    cases n with
    | ofNat m =>
      rcases natDigitsAux_shape (m + 1) m with hnil | ⟨k, rest, hk, heq⟩
      · exact absurd hnil (natDigitsAux_ne_nil _ _ (Nat.succ_ne_zero m))
      · exact ⟨digitChar k, rest, by simp [stringify, intChars, natDigits, heq],
          by simp [goodHead, digitChar_isDigit k hk]⟩
    | negSucc m => exact ⟨'-', natDigits (m + 1), by simp [stringify, intChars], by decide⟩
  | str s => exact ⟨'"', escape s ++ ['"'], by simp [stringify], by decide⟩
  | arr es => exact ⟨'[', stringifyArr es ++ [']'], by simp [stringify], by decide⟩
  | obj ms => exact ⟨'\x7b', stringifyObj ms ++ ['\x7d'], by simp [stringify], by decide⟩

/-- Every value has positive parsing cost. -/
theorem sizeJ_pos (v : Json) : 1 ≤ sizeJ v := by
  cases v <;> rw [sizeJ] <;> omega

/-- Non-empty element lists have positive parsing cost. -/
theorem sizeL_pos (es : List Json) (h : es ≠ []) : 1 ≤ sizeL es := by
  cases es with
  | nil => exact absurd rfl h
  | cons e es' => rw [sizeL]; omega

/-- Non-empty member lists have positive parsing cost. -/
theorem sizeM_pos (ms : List (List Char × Json)) (h : ms ≠ []) : 1 ≤ sizeM ms := by
  cases ms with
  | nil => exact absurd rfl h
  | cons kv ms' => rw [sizeM]; omega

mutual

/-- The parsing cost of a value is bounded by its serialization length. -/
theorem sizeJ_le : ∀ v : Json, sizeJ v ≤ (stringify v).length
  | Json.null => by rw [sizeJ, stringify]; simp
  | Json.bool true => by rw [sizeJ, stringify]; simp
  | Json.bool false => by rw [sizeJ, stringify]; simp
  | Json.num (Int.ofNat m) => by
    have h := (natDigits_spec m).2.2
    rw [sizeJ, stringify, intChars]
    have := List.length_pos.mpr h
    omega
  | Json.num (Int.negSucc m) => by
    rw [sizeJ, stringify, intChars]
    simp
  | Json.str s => by rw [sizeJ, stringify]; simp
  | Json.arr es => by
    have h := sizeL_le es
    rw [sizeJ, stringify]
    simp only [List.length_cons, List.length_append, List.length_singleton]
    omega
  | Json.obj ms => by
    have h := sizeM_le ms
    rw [sizeJ, stringify]
    simp only [List.length_cons, List.length_append, List.length_singleton]
    omega

/-- The parsing cost of array elements is bounded by their serialization
length plus one. -/
theorem sizeL_le : ∀ es : List Json, sizeL es ≤ (stringifyArr es).length + 1
  | [] => by rw [sizeL, stringifyArr]; simp
  | [e] => by
    have h := sizeJ_le e
    rw [sizeL, sizeL, stringifyArr]
    omega
  | e :: e2 :: es => by
    have h1 := sizeJ_le e
    have h2 := sizeL_le (e2 :: es)
    rw [sizeL, stringifyArr]
    · simp only [List.length_append, List.length_cons]
      omega
    · exact fun hx => List.noConfusion hx

/-- The parsing cost of object members is bounded by their serialization
length plus one. -/
theorem sizeM_le : ∀ ms : List (List Char × Json), sizeM ms ≤ (stringifyObj ms).length + 1
  | [] => by rw [sizeM, stringifyObj]; simp
  | [kv] => by
    have h := sizeJ_le kv.2
    rw [sizeM, sizeM, stringifyObj]
    simp only [List.length_cons, List.length_append]
    omega
  | kv :: kv2 :: ms => by
    have h1 := sizeJ_le kv.2
    have h2 := sizeM_le (kv2 :: ms)
    rw [sizeM, stringifyObj]
    · simp only [List.length_append, List.length_cons]
      omega
    · exact fun hx => List.noConfusion hx

end

/-- Decoding inverts the serializer's string escaping. -/
theorem parse_escape (s : List Char) : ∀ rest : List Char,
    parseStringBody (escape s ++ ('"' :: rest)) = some (s, rest) := by
  induction s with
  | nil =>
    intro rest
    show parseStringBody ('"' :: rest) = some ([], rest)
    rw [parseStringBody.eq_def]
    rfl
  | cons c s' ih =>
    intro rest
    have hesc : escape (c :: s') = escChar c ++ escape s' := by
      simp [escape]
    rw [hesc, List.append_assoc]
    by_cases h1 : c = '"'
    · subst h1
      rw [show escChar '"' = ['\\', '"'] from rfl, List.cons_append, List.cons_append,
        List.nil_append]
      have step : parseStringBody ('\\' :: '"' :: (escape s' ++ ('"' :: rest))) =
          (parseStringBody (escape s' ++ ('"' :: rest))).map (fun p => ('"' :: p.1, p.2)) := by
        rw [parseStringBody.eq_def]
        rfl
      rw [step, ih rest]
      rfl
    · by_cases h2 : c = '\\'
      · subst h2
        rw [show escChar '\\' = ['\\', '\\'] from rfl, List.cons_append, List.cons_append,
          List.nil_append]
        have step : parseStringBody ('\\' :: '\\' :: (escape s' ++ ('"' :: rest))) =
            (parseStringBody (escape s' ++ ('"' :: rest))).map (fun p => ('\\' :: p.1, p.2)) := by
          rw [parseStringBody.eq_def]
          rfl
        rw [step, ih rest]
        rfl
      · by_cases h3 : c = '\x08'
        · subst h3
          rw [show escChar '\x08' = ['\\', 'b'] from rfl, List.cons_append, List.cons_append,
            List.nil_append]
          have step : parseStringBody ('\\' :: 'b' :: (escape s' ++ ('"' :: rest))) =
              (parseStringBody (escape s' ++ ('"' :: rest))).map (fun p => ('\x08' :: p.1, p.2)) := by
            rw [parseStringBody.eq_def]
            rfl
          rw [step, ih rest]
          rfl
        · by_cases h4 : c = '\x0c'
          · subst h4
            rw [show escChar '\x0c' = ['\\', 'f'] from rfl, List.cons_append, List.cons_append,
              List.nil_append]
            have step : parseStringBody ('\\' :: 'f' :: (escape s' ++ ('"' :: rest))) =
                (parseStringBody (escape s' ++ ('"' :: rest))).map (fun p => ('\x0c' :: p.1, p.2)) := by
              rw [parseStringBody.eq_def]
              rfl
            rw [step, ih rest]
            rfl
          · by_cases h5 : c = '\n'
            · subst h5
              rw [show escChar '\n' = ['\\', 'n'] from rfl, List.cons_append, List.cons_append,
                List.nil_append]
              have step : parseStringBody ('\\' :: 'n' :: (escape s' ++ ('"' :: rest))) =
                  (parseStringBody (escape s' ++ ('"' :: rest))).map (fun p => ('\n' :: p.1, p.2)) := by
                rw [parseStringBody.eq_def]
                rfl
              rw [step, ih rest]
              rfl
            · by_cases h6 : c = '\r'
              · subst h6
                rw [show escChar '\r' = ['\\', 'r'] from rfl, List.cons_append, List.cons_append,
                  List.nil_append]
                have step : parseStringBody ('\\' :: 'r' :: (escape s' ++ ('"' :: rest))) =
                    (parseStringBody (escape s' ++ ('"' :: rest))).map (fun p => ('\r' :: p.1, p.2)) := by
                  rw [parseStringBody.eq_def]
                  rfl
                rw [step, ih rest]
                rfl
              · by_cases h7 : c = '\t'
                · subst h7
                  rw [show escChar '\t' = ['\\', 't'] from rfl, List.cons_append, List.cons_append,
                    List.nil_append]
                  have step : parseStringBody ('\\' :: 't' :: (escape s' ++ ('"' :: rest))) =
                      (parseStringBody (escape s' ++ ('"' :: rest))).map (fun p => ('\t' :: p.1, p.2)) := by
                    rw [parseStringBody.eq_def]
                    rfl
                  rw [step, ih rest]
                  rfl
                · by_cases h8 : c.toNat < 0x20
                  · have he : escChar c = ['\\', 'u', '0', '0', hexChar (c.toNat / 16),
                        hexChar (c.toNat % 16)] := by
                      rw [escChar, if_neg h1, if_neg h2, if_neg h3, if_neg h4, if_neg h5,
                        if_neg h6, if_neg h7, if_pos h8]
                    rw [he, List.cons_append, List.cons_append, List.cons_append, List.cons_append,
                      List.cons_append, List.cons_append, List.nil_append]
                    have step : parseStringBody ('\\' :: 'u' :: '0' :: '0' :: hexChar (c.toNat / 16) ::
                        hexChar (c.toNat % 16) :: (escape s' ++ ('"' :: rest))) =
                        (hexVal (hexChar (c.toNat / 16))).bind (fun c2 =>
                          (hexVal (hexChar (c.toNat % 16))).bind (fun d =>
                            if 0xD800 ≤ ((0 * 16 + 0) * 16 + c2) * 16 + d ∧
                                ((0 * 16 + 0) * 16 + c2) * 16 + d < 0xE000 then none
                            else
                              (parseStringBody (escape s' ++ ('"' :: rest))).map (fun p =>
                                (Char.ofNat (((0 * 16 + 0) * 16 + c2) * 16 + d) :: p.1, p.2)))) := by
                      rw [parseStringBody.eq_def]
                      rfl
                    rw [step, hexVal_hexChar (c.toNat / 16) (by omega),
                      hexVal_hexChar (c.toNat % 16) (by omega)]
                    simp only [Option.some_bind]
                    rw [if_neg (by omega), ih rest]
                    simp only [Option.map_some']
                    have hE : ((0 * 16 + 0) * 16 + c.toNat / 16) * 16 + c.toNat % 16 = c.toNat := by
                      omega
                    rw [hE, Char.ofNat_toNat]
                  · have he : escChar c = [c] := by
                      rw [escChar, if_neg h1, if_neg h2, if_neg h3, if_neg h4, if_neg h5,
                        if_neg h6, if_neg h7, if_neg h8]
                    rw [he, List.cons_append, List.nil_append, parseStringBody.eq_def]
                    simp [h1, h2, h8, ih rest]

/-- One-step unfolding of the value parser at a `null` literal head. -/
theorem pjv_null (f : Nat) (X : List Char) : parseJsonValue (f + 1) ('n' :: X) =
    (dropLit ('u' :: 'l' :: 'l' :: []) X).map (fun r => (Json.null, r)) := by
  rw [parseJsonValue.eq_def]
  rfl

/-- One-step unfolding of the value parser at a `true` literal head. -/
theorem pjv_true (f : Nat) (X : List Char) : parseJsonValue (f + 1) ('t' :: X) =
    (dropLit ('r' :: 'u' :: 'e' :: []) X).map (fun r => (Json.bool true, r)) := by
  rw [parseJsonValue.eq_def]
  rfl

/-- One-step unfolding of the value parser at a `false` literal head. -/
theorem pjv_false (f : Nat) (X : List Char) : parseJsonValue (f + 1) ('f' :: X) =
    (dropLit ('a' :: 'l' :: 's' :: 'e' :: []) X).map (fun r => (Json.bool false, r)) := by
  rw [parseJsonValue.eq_def]
  rfl

/-- One-step unfolding of the value parser at a string head. -/
theorem pjv_str (f : Nat) (X : List Char) : parseJsonValue (f + 1) ('"' :: X) =
    (parseStringBody X).map (fun p => (Json.str p.1, p.2)) := by
  rw [parseJsonValue.eq_def]
  rfl

/-- One-step unfolding of the value parser at an array head. -/
theorem pjv_arr (f : Nat) (X : List Char) : parseJsonValue (f + 1) ('[' :: X) =
    (if ((X.dropWhile jsonWs).head? = some ']') then
      some (Json.arr [], (X.dropWhile jsonWs).tail)
    else
      (parseArrayItems f (X.dropWhile jsonWs)).map (fun p => (Json.arr p.1, p.2))) := by
  rw [parseJsonValue.eq_def]
  rfl

/-- One-step unfolding of the value parser at an object head. -/
theorem pjv_obj (f : Nat) (X : List Char) : parseJsonValue (f + 1) ('\x7b' :: X) =
    (if ((X.dropWhile jsonWs).head? = some '\x7d') then
      some (Json.obj [], (X.dropWhile jsonWs).tail)
    else
      (parseObjMembers f (X.dropWhile jsonWs) []).map (fun p => (Json.obj p.1, p.2))) := by
  rw [parseJsonValue.eq_def]
  rfl

/-- One-step unfolding of the value parser at a minus sign. -/
theorem pjv_minus (f : Nat) (X : List Char) : parseJsonValue (f + 1) ('-' :: X) =
    (if (takeDigits X).1 = [] then none
    else if isNumCont (takeDigits X).2 then none
    else some (Json.num (-(digitsVal (takeDigits X).1 : Int)), (takeDigits X).2)) := by
  rw [parseJsonValue.eq_def]
  rfl

/-- One-step unfolding of the value parser at a decimal digit. -/
theorem pjv_digit (f : Nat) (d : Char) (X : List Char) (hd : d.isDigit = true) :
    parseJsonValue (f + 1) (d :: X) =
    (if isNumCont (takeDigits (d :: X)).2 then none
    else some (Json.num ((digitsVal (takeDigits (d :: X)).1 : Nat) : Int),
      (takeDigits (d :: X)).2)) := by
  obtain ⟨_, _, hn, ht, hf, hq, hb, hbr, hm, _, _, _⟩ := isDigit_not_special d hd
  rw [parseJsonValue.eq_def]
  simp [hn, ht, hf, hq, hb, hbr, hm, hd]

/-- One-step unfolding of the array-items parser. -/
theorem pai_step (f : Nat) (cs : List Char) : parseArrayItems (f + 1) cs =
    (parseJsonValue f (cs.dropWhile jsonWs)).bind (fun p =>
      if ((p.2.dropWhile jsonWs).head? = some ',') then
        (parseArrayItems f (p.2.dropWhile jsonWs).tail).map (fun q => (p.1 :: q.1, q.2))
      else if ((p.2.dropWhile jsonWs).head? = some ']') then
        some ([p.1], (p.2.dropWhile jsonWs).tail)
      else none) := by
  rw [parseArrayItems.eq_def]

/-- One-step unfolding of the object-members parser. -/
theorem pom_step (f : Nat) (cs : List Char) (acc : List (List Char × Json)) :
    parseObjMembers (f + 1) cs acc =
    (if ((cs.dropWhile jsonWs).head? = some '"') then
      (parseStringBody (cs.dropWhile jsonWs).tail).bind (fun kp =>
        if ((kp.2.dropWhile jsonWs).head? = some ':') then
          (parseJsonValue f (((kp.2.dropWhile jsonWs).tail).dropWhile jsonWs)).bind
            (fun vp =>
              if ((vp.2.dropWhile jsonWs).head? = some ',') then
                parseObjMembers f (vp.2.dropWhile jsonWs).tail (objInsert acc kp.1 vp.1)
              else if ((vp.2.dropWhile jsonWs).head? = some '\x7d') then
                some (objInsert acc kp.1 vp.1, (vp.2.dropWhile jsonWs).tail)
              else none)
        else none)
    else none) := by
  rw [parseObjMembers.eq_def]

/-- Whitespace stripping fixes a text beginning with a serialized value. -/
theorem dropWhile_stringify (v : Json) (Y : List Char) :
    (stringify v ++ Y).dropWhile jsonWs = stringify v ++ Y := by
  obtain ⟨c, r, hcr, hgc⟩ := stringify_head_good v
  rw [hcr, List.cons_append, dropWhile_jsonWs_cons c _ (goodHead_facts c hgc).1]

/-- A serialized non-empty element list starts with a value-head character. -/
theorem stringifyArr_head (e : Json) (es : List Json) :
    ∃ c r, stringifyArr (e :: es) = c :: r ∧ goodHead c = true := by
  obtain ⟨c, r, hcr, hgc⟩ := stringify_head_good e
  cases es with
  | nil => exact ⟨c, r, by rw [show stringifyArr [e] = stringify e from by simp [stringifyArr],
      hcr], hgc⟩
  | cons e2 es' =>
    refine ⟨c, r ++ (',' :: stringifyArr (e2 :: es')), ?_, hgc⟩
    rw [show stringifyArr (e :: e2 :: es') = stringify e ++ (',' :: stringifyArr (e2 :: es'))
        from by simp [stringifyArr], hcr, List.cons_append]

/-- A serialized non-empty member list starts with a double quote. -/
theorem stringifyObj_head (kv : List Char × Json) (ms : List (List Char × Json)) :
    ∃ r, stringifyObj (kv :: ms) = '"' :: r := by
  cases ms with
  | nil => exact ⟨escape kv.1 ++ ('"' :: ':' :: stringify kv.2), by simp [stringifyObj]⟩
  | cons kv2 ms' =>
    exact ⟨(escape kv.1 ++ ('"' :: ':' :: stringify kv.2)) ++ (',' :: stringifyObj (kv2 :: ms')),
      by simp [stringifyObj]⟩

/-- The parser inverts the serializer: a well-formed value followed by a
numeral-boundary remainder parses back exactly, and likewise for element and
member lists up to their closing bracket. -/
theorem parse_stringify_all (fuel : Nat) :
    (∀ v rest, jsonWF v = true → sizeJ v ≤ fuel → numBoundary rest = true →
      parseJsonValue fuel (stringify v ++ rest) = some (v, rest)) ∧
    (∀ es rest, es ≠ [] → jsonWFList es = true → sizeL es ≤ fuel →
      parseArrayItems fuel (stringifyArr es ++ (']' :: rest)) = some (es, rest)) ∧
    (∀ ms acc rest, ms ≠ [] → jsonWFMembers ms = true → nodupKeysB ms = true →
      (∀ kv ∈ ms, ∀ kv2 ∈ acc, kv2.1 ≠ kv.1) → sizeM ms ≤ fuel →
      parseObjMembers fuel (stringifyObj ms ++ ('\x7d' :: rest)) acc =
        some (acc ++ ms, rest)) := by
  induction fuel with
  | zero =>
    refine ⟨fun v rest _ hsz _ => absurd hsz (by have := sizeJ_pos v; omega),
      fun es rest hne _ hsz => absurd hsz (by have := sizeL_pos es hne; omega),
      fun ms acc rest hne _ _ _ hsz => absurd hsz (by have := sizeM_pos ms hne; omega)⟩
  | succ f ih =>
    obtain ⟨ihV, ihA, ihO⟩ := ih
    refine ⟨?_, ?_, ?_⟩
    · intro v rest hwf hsz hnb
      cases v with
      | null =>
        rw [show stringify Json.null = 'n' :: 'u' :: 'l' :: 'l' :: [] from by simp [stringify],
          List.cons_append, List.cons_append, List.cons_append, List.cons_append,
          List.nil_append, pjv_null f,
          show 'u' :: 'l' :: 'l' :: rest = ('u' :: 'l' :: 'l' :: []) ++ rest from rfl,
          dropLit_self]
        rfl
      | bool b =>
        cases b with
        | true =>
          rw [show stringify (Json.bool true) = 't' :: 'r' :: 'u' :: 'e' :: [] from by
              simp [stringify],
            List.cons_append, List.cons_append, List.cons_append, List.cons_append,
            List.nil_append, pjv_true f,
            show 'r' :: 'u' :: 'e' :: rest = ('r' :: 'u' :: 'e' :: []) ++ rest from rfl,
            dropLit_self]
          rfl
        | false =>
          rw [show stringify (Json.bool false) = 'f' :: 'a' :: 'l' :: 's' :: 'e' :: [] from by
              simp [stringify],
            List.cons_append, List.cons_append, List.cons_append, List.cons_append,
            List.cons_append, List.nil_append, pjv_false f,
            show 'a' :: 'l' :: 's' :: 'e' :: rest = ('a' :: 'l' :: 's' :: 'e' :: []) ++ rest
              from rfl,
            dropLit_self]
          rfl
      | num n =>
        cases n with
        | ofNat m =>
          have hnd := natDigits_spec m
          obtain ⟨d, ds', hds⟩ := List.exists_cons_of_ne_nil hnd.2.2
          have hd : d.isDigit = true := hnd.1 d (hds ▸ List.mem_cons_self d ds')
          rw [show stringify (Json.num (Int.ofNat m)) = natDigits m from by
              simp [stringify, intChars],
            hds, List.cons_append, pjv_digit f d (ds' ++ rest) hd]
          have htd : takeDigits (d :: (ds' ++ rest)) = (d :: ds', rest) := by
            rw [show d :: (ds' ++ rest) = (d :: ds') ++ rest from rfl]
            exact takeDigits_append (d :: ds') rest (fun c hc => hnd.1 c (hds ▸ hc)) hnb
          rw [htd]
          show (if isNumCont rest then none
            else some (Json.num ((digitsVal (d :: ds') : Nat) : Int), rest)) =
              some (Json.num (Int.ofNat m), rest)
          rw [if_neg (by simp [numBoundary_isNumCont rest hnb]), ← hds, hnd.2.1]
          rfl
        | negSucc m =>
          have hnd := natDigits_spec (m + 1)
          rw [show stringify (Json.num (Int.negSucc m)) = '-' :: natDigits (m + 1) from by
              simp [stringify, intChars],
            List.cons_append, pjv_minus f,
            takeDigits_append (natDigits (m + 1)) rest hnd.1 hnb]
          show (if natDigits (m + 1) = [] then none
            else if isNumCont rest then none
            else some (Json.num (-(digitsVal (natDigits (m + 1)) : Int)), rest)) =
              some (Json.num (Int.negSucc m), rest)
          rw [if_neg hnd.2.2, if_neg (by simp [numBoundary_isNumCont rest hnb]), hnd.2.1]
          simp [Int.negSucc_eq]
      | str s =>
        rw [show stringify (Json.str s) ++ rest = '"' :: (escape s ++ ('"' :: rest)) from by
            simp [stringify],
          pjv_str f, parse_escape s rest]
        rfl
      | arr es =>
        cases es with
        | nil =>
          rw [show stringify (Json.arr []) ++ rest = '[' :: ']' :: rest from by
              simp [stringify, stringifyArr],
            pjv_arr f, dropWhile_jsonWs_cons ']' rest (by decide), List.head?_cons,
            if_pos rfl, List.tail_cons]
        | cons e es' =>
          have hwfl : jsonWFList (e :: es') = true := by rw [jsonWF] at hwf; exact hwf
          rw [show stringify (Json.arr (e :: es')) ++ rest =
              '[' :: (stringifyArr (e :: es') ++ (']' :: rest)) from by simp [stringify],
            pjv_arr f]
          obtain ⟨c, r, hcr, hgc⟩ := stringifyArr_head e es'
          have hdw : ((stringifyArr (e :: es') ++ (']' :: rest)).dropWhile jsonWs) =
              stringifyArr (e :: es') ++ (']' :: rest) := by
            rw [hcr, List.cons_append, dropWhile_jsonWs_cons c _ (goodHead_facts c hgc).1]
          have hcond : ¬((stringifyArr (e :: es') ++ (']' :: rest)).head? = some ']') := by
            rw [hcr, List.cons_append, List.head?_cons]
            intro hx
            exact (goodHead_facts c hgc).2.2.1 (Option.some.inj hx)
          rw [hdw, if_neg hcond,
            ihA (e :: es') rest (List.cons_ne_nil e es') hwfl (by rw [sizeJ] at hsz; omega)]
          rfl
      | obj ms =>
        cases ms with
        | nil =>
          rw [show stringify (Json.obj []) ++ rest = '\x7b' :: '\x7d' :: rest from by
              simp [stringify, stringifyObj],
            pjv_obj f, dropWhile_jsonWs_cons '\x7d' rest (by decide), List.head?_cons,
            if_pos rfl, List.tail_cons]
        | cons kv ms' =>
          have hwf2 : nodupKeysB (kv :: ms') = true ∧ jsonWFMembers (kv :: ms') = true := by
            rw [jsonWF, Bool.and_eq_true] at hwf; exact hwf
          rw [show stringify (Json.obj (kv :: ms')) ++ rest =
              '\x7b' :: (stringifyObj (kv :: ms') ++ ('\x7d' :: rest)) from by simp [stringify],
            pjv_obj f]
          obtain ⟨r, hcr⟩ := stringifyObj_head kv ms'
          have hdw : ((stringifyObj (kv :: ms') ++ ('\x7d' :: rest)).dropWhile jsonWs) =
              stringifyObj (kv :: ms') ++ ('\x7d' :: rest) := by
            rw [hcr, List.cons_append, dropWhile_jsonWs_cons '"' _ (by decide)]
          have hcond : ¬((stringifyObj (kv :: ms') ++ ('\x7d' :: rest)).head? =
              some '\x7d') := by
            rw [hcr, List.cons_append, List.head?_cons]
            intro hx
            exact absurd (Option.some.inj hx) (by decide)
          rw [hdw, if_neg hcond,
            ihO (kv :: ms') [] rest (List.cons_ne_nil kv ms') hwf2.2 hwf2.1
              (fun kv' _ kv2 hkv2 => absurd hkv2 (List.not_mem_nil kv2))
              (by rw [sizeJ] at hsz; omega)]
          simp
    · intro es rest hne hwf hsz
      cases es with
      | nil => exact absurd rfl hne
      | cons e es' =>
        have hwf2 : jsonWF e = true ∧ jsonWFList es' = true := by
          rw [jsonWFList, Bool.and_eq_true] at hwf; exact hwf
        rw [pai_step f]
        cases es' with
        | nil =>
          rw [show stringifyArr [e] ++ (']' :: rest) = stringify e ++ (']' :: rest) from by
              simp [stringifyArr],
            dropWhile_stringify e (']' :: rest),
            ihV e (']' :: rest) hwf2.1 (by rw [sizeL, sizeL] at hsz; omega) rfl]
          simp only [Option.some_bind]
          rw [dropWhile_jsonWs_cons ']' rest (by decide), List.head?_cons,
            if_neg (by decide), if_pos rfl, List.tail_cons]
        | cons e2 es'' =>
          have hszs := sizeL_pos (e2 :: es'') (List.cons_ne_nil e2 es'')
          rw [show stringifyArr (e :: e2 :: es'') ++ (']' :: rest) =
              stringify e ++ (',' :: (stringifyArr (e2 :: es'') ++ (']' :: rest))) from by
              simp [stringifyArr],
            dropWhile_stringify e (',' :: (stringifyArr (e2 :: es'') ++ (']' :: rest))),
            ihV e (',' :: (stringifyArr (e2 :: es'') ++ (']' :: rest))) hwf2.1
              (by rw [sizeL] at hsz; omega) rfl]
          simp only [Option.some_bind]
          rw [dropWhile_jsonWs_cons ',' _ (by decide), List.head?_cons, if_pos rfl,
            List.tail_cons,
            ihA (e2 :: es'') rest (List.cons_ne_nil e2 es'') hwf2.2
              (by rw [sizeL] at hsz; have := sizeJ_pos e; omega)]
          rfl
    · intro ms acc rest hne hwf hnd hfr hsz
      cases ms with
      | nil => exact absurd rfl hne
      | cons kv ms' =>
        have hwf2 : jsonWF kv.2 = true ∧ jsonWFMembers ms' = true := by
          rw [jsonWFMembers, Bool.and_eq_true] at hwf; exact hwf
        have hnd2 : (!(ms'.any (fun kv2 => kv2.1 = kv.1))) = true ∧ nodupKeysB ms' = true := by
          rw [nodupKeysB, Bool.and_eq_true] at hnd; exact hnd
        have hfrh : ∀ kv2 ∈ acc, kv2.1 ≠ kv.1 :=
          hfr kv (List.mem_cons_self kv ms')
        rw [pom_step f]
        cases ms' with
        | nil =>
          rw [show stringifyObj [kv] ++ ('\x7d' :: rest) =
              '"' :: (escape kv.1 ++ ('"' :: (':' :: (stringify kv.2 ++ ('\x7d' :: rest)))))
              from by simp [stringifyObj],
            dropWhile_jsonWs_cons '"' _ (by decide), List.head?_cons, if_pos rfl,
            List.tail_cons,
            parse_escape kv.1 (':' :: (stringify kv.2 ++ ('\x7d' :: rest)))]
          simp only [Option.some_bind]
          rw [dropWhile_jsonWs_cons ':' _ (by decide), List.head?_cons, if_pos rfl,
            List.tail_cons, dropWhile_stringify kv.2 ('\x7d' :: rest),
            ihV kv.2 ('\x7d' :: rest) hwf2.1 (by rw [sizeM, sizeM] at hsz; omega) rfl]
          simp only [Option.some_bind]
          rw [dropWhile_jsonWs_cons '\x7d' rest (by decide), List.head?_cons,
            if_neg (by decide), if_pos rfl, List.tail_cons,
            objInsert_append acc kv.1 kv.2 hfrh]
        | cons kv2 ms'' =>
          have hszs := sizeM_pos (kv2 :: ms'') (List.cons_ne_nil kv2 ms'')
          have hfr2 : ∀ kv' ∈ (kv2 :: ms''), ∀ x ∈ acc ++ [kv], x.1 ≠ kv'.1 := by
            intro kv' hkv' x hx
            rcases List.mem_append.mp hx with hxa | hxk
            · exact hfr kv' (List.mem_cons_of_mem kv hkv') x hxa
            · have hxkv : x = kv := by simpa using hxk
              subst hxkv
              have := hnd2.1
              rw [Bool.not_eq_true', List.any_eq_false] at this
              intro he
              exact absurd he.symm (by simpa using this kv' hkv')
          rw [show stringifyObj (kv :: kv2 :: ms'') ++ ('\x7d' :: rest) =
              '"' :: (escape kv.1 ++ ('"' :: (':' :: (stringify kv.2 ++
                (',' :: (stringifyObj (kv2 :: ms'') ++ ('\x7d' :: rest)))))))
              from by simp [stringifyObj],
            dropWhile_jsonWs_cons '"' _ (by decide), List.head?_cons, if_pos rfl,
            List.tail_cons,
            parse_escape kv.1 (':' :: (stringify kv.2 ++
              (',' :: (stringifyObj (kv2 :: ms'') ++ ('\x7d' :: rest)))))]
          simp only [Option.some_bind]
          rw [dropWhile_jsonWs_cons ':' _ (by decide), List.head?_cons, if_pos rfl,
            List.tail_cons,
            dropWhile_stringify kv.2 (',' :: (stringifyObj (kv2 :: ms'') ++ ('\x7d' :: rest))),
            ihV kv.2 (',' :: (stringifyObj (kv2 :: ms'') ++ ('\x7d' :: rest))) hwf2.1
              (by rw [sizeM] at hsz; omega) rfl]
          simp only [Option.some_bind]
          rw [dropWhile_jsonWs_cons ',' _ (by decide), List.head?_cons, if_pos rfl,
            List.tail_cons, objInsert_append acc kv.1 kv.2 hfrh,
            show acc ++ [(kv.1, kv.2)] = acc ++ [kv] from by simp,
            ihO (kv2 :: ms'') (acc ++ [kv]) rest (List.cons_ne_nil kv2 ms'') hwf2.2 hnd2.2
              hfr2 (by rw [sizeM] at hsz; have := sizeJ_pos kv.2; omega)]
          simp

/-- The model `JSON.parse` inverts the model `JSON.stringify` on well-formed
values. -/
theorem jsonParse_stringify (v : Json) (hwf : jsonWF v = true) :
    jsonParse (stringify v) = some v := by
  have hlen := sizeJ_le v
  have hkey := (parse_stringify_all (2 * (stringify v).length + 2)).1 v [] hwf (by omega) rfl
  rw [List.append_nil] at hkey
  have hdw : (stringify v).dropWhile jsonWs = stringify v := by
    obtain ⟨c, r, hcr, hgc⟩ := stringify_head_good v
    rw [hcr, dropWhile_jsonWs_cons c r (goodHead_facts c hgc).1]
  rw [jsonParse, hdw, hkey]
  rfl

end CustDev

namespace CustDev

/-- C8: the extractor, on input with no fenced block, locates the JSON
candidate by string-aware bracket matching: on prose around an object it
returns exactly the object, and a closing brace inside a double-quoted string
value does not truncate the match. -/
theorem C8_extractJsonBlock_fixtures :
    extractJsonBlock c8prose = some c8proseBlock ∧ extractJsonBlock c8braces = some c8braces :=
  ⟨by decide, by decide⟩

/-- C9 (amended): serializing a well-formed JSON value (duplicate-free object
keys at every level, as the platform serializer guarantees) whose serialized
text contains no triple backtick, wrapping it in a fenced code block and
extracting returns exactly the serialized text, and that text parses back to a
structurally equal value.  (Without the backtick restriction the claim fails:
see the counterexample, where the non-greedy fence regex stops at the backtick
run inside the serialized string and the extracted fragment no longer
parses.) -/
theorem C9_fenced_roundtrip (v : Json) (hwf : jsonWF v = true)
    (h : hasTriple (stringify v) = false) :
    extractJsonBlock (fenceWrap (stringify v)) = some (stringify v) ∧
      jsonParse (stringify v) = some v := by
  refine ⟨?_, jsonParse_stringify v hwf⟩
  obtain ⟨c, r, hcr, hc⟩ := stringify_head v
  obtain ⟨i, d, hid, hd⟩ := stringify_last v
  have hfence : fencedInterior (fenceWrap (stringify v)) = some (stringify v ++ ['\n']) := by
    rw [hcr]
    have e1 : fencedInterior (fenceWrap (c :: r)) =
        takeUntilFence (List.dropWhile isJsWs (c :: (r ++ '\n' :: '`' :: '`' :: '`' :: []))) := rfl
    rw [e1, List.dropWhile_cons]
    simp only [hc, Bool.false_eq_true, if_false]
    have e2 := takeUntilFence_closes [] (c :: r) (hcr ▸ h)
    simpa using e2
  rw [extractJsonBlock, hfence]
  have hne : stringify v ++ ['\n'] ≠ [] := by simp
  show (if (stringify v ++ ['\n']) ≠ [] then some (trimL (stringify v ++ ['\n']))
      else extractNoFence (fenceWrap (stringify v))) = some (stringify v)
  rw [if_pos hne, hcr,
    trimL_append_nl c d r i (hcr ▸ hid) hc hd]

/-- C9 witness: the full round trip holds at the concrete object with one
numeric member. -/
theorem C9_fenced_roundtrip_witness :
    jsonWF c9good = true ∧ hasTriple (stringify c9good) = false ∧
      (extractJsonBlock (fenceWrap (stringify c9good)) = some (stringify c9good) ∧
        jsonParse (stringify c9good) = some c9good) := by
  have hwf : jsonWF c9good = true := by
    simp [c9good, jsonWF, jsonWFMembers, jsonWFList, nodupKeysB]
  have hs : stringify c9good = ("\x7b\"a\":1\x7d").data := by
    simp [c9good, stringify, stringifyObj, escape, escChar, intChars, natDigits, natDigitsAux,
      digitChar]
  exact ⟨hwf, by rw [hs]; decide, C9_fenced_roundtrip c9good hwf (by rw [hs]; decide)⟩

/-- C9 counterexample: for the JSON string consisting of three backticks
(serialized text `"``` "` between quotes), the extractor returns a lone double
quote — the fence regex is non-greedy and stops at the backticks inside the
string literal — and that extracted text fails to parse, so the round trip
fails at this serializable value. -/
theorem C9_roundtrip_counterexample :
    extractJsonBlock (fenceWrap (stringify c9bad)) = some ('"' :: []) ∧
      jsonParse ('"' :: []) = none := by
  have hs : stringify c9bad = '"' :: '`' :: '`' :: '`' :: '"' :: [] := by
    simp [c9bad, stringify, escape, escChar]
  rw [hs]
  exact ⟨by decide, by rfl⟩

/-- A successful call returns immediately with the attempts and sleeps so far. -/
theorem ccLoop_success (mr : Nat) (backend : Nat → LlmOutcome) (a bo : Nat) (sl : List Nat)
    (r : ChatResponse) (h : backend a = LlmOutcome.success r) :
    ccLoop mr backend a bo sl = CCResult.ok r a sl := by
  rw [ccLoop, h]

/-- A transient failure with attempts remaining sleeps and retries with
doubled backoff. -/
theorem ccLoop_retry (mr : Nat) (backend : Nat → LlmOutcome) (a bo : Nat) (sl : List Nat)
    (st : Option Nat) (tmo : Bool) (msg data : List Char) (ra : Option Nat)
    (h : backend a = LlmOutcome.failure st tmo msg data ra)
    (hr : shouldRetry st tmo = true) (ha : a < mr) :
    ccLoop mr backend a bo sl =
      ccLoop mr backend (a + 1) (bo * 2) (sl ++ [max bo (retryAfterMs ra)]) := by
  rw [ccLoop, h]
  exact dif_pos ⟨hr, ha⟩

/-- A non-transient failure, or exhausted attempts, raises the error text. -/
theorem ccLoop_fail (mr : Nat) (backend : Nat → LlmOutcome) (a bo : Nat) (sl : List Nat)
    (st : Option Nat) (tmo : Bool) (msg data : List Char) (ra : Option Nat)
    (h : backend a = LlmOutcome.failure st tmo msg data ra)
    (hstop : ¬(shouldRetry st tmo = true ∧ a < mr)) :
    ccLoop mr backend a bo sl = CCResult.error (errString st msg data) a sl := by
  rw [ccLoop, h]
  exact dif_neg hstop

/-- C1: with a backend that rate-limits twice and then succeeds, the client
returns the success result after exactly 2 retries; each sleep is the maximum
of the current backoff and the server-provided retry delay, the backoff
doubling from the configured initial value, so the total sleep is at least
initial plus twice the initial. -/
theorem C1_two_rate_limits_then_success (maxRetries b0 : Nat) (hmr : 2 ≤ maxRetries)
    (r : ChatResponse) (msg0 msg1 data0 data1 : List Char) (ra0 ra1 : Option Nat)
    (backend : Nat → LlmOutcome)
    (h0 : backend 0 = LlmOutcome.failure (some 429) false msg0 data0 ra0)
    (h1 : backend 1 = LlmOutcome.failure (some 429) false msg1 data1 ra1)
    (h2 : backend 2 = LlmOutcome.success r) :
    createChatCompletion maxRetries b0 backend =
      CCResult.ok r 2 [max b0 (retryAfterMs ra0), max (b0 * 2) (retryAfterMs ra1)] ∧
    b0 + b0 * 2 ≤ [max b0 (retryAfterMs ra0), max (b0 * 2) (retryAfterMs ra1)].sum := by
  have hsr : shouldRetry (some 429) false = true := by decide
  constructor
  · rw [createChatCompletion,
      ccLoop_retry maxRetries backend 0 b0 [] (some 429) false msg0 data0 ra0 h0 hsr
        (by omega),
      ccLoop_retry maxRetries backend 1 (b0 * 2) _ (some 429) false msg1 data1 ra1 h1 hsr
        (by omega),
      ccLoop_success maxRetries backend 2 _ _ r h2]
    simp
  · simp only [List.sum_cons, List.sum_nil, Nat.add_zero]
    exact Nat.add_le_add (Nat.le_max_left _ _) (Nat.le_max_left _ _)

/-- C1 witness: initial backoff 2000, retry-after of 7 seconds on the second
failure. -/
theorem C1_two_rate_limits_then_success_witness :
    createChatCompletion 6 2000 c1backend =
      CCResult.ok c1response 2
        [max 2000 (retryAfterMs none), max (2000 * 2) (retryAfterMs (some 7))] ∧
    2000 + 2000 * 2 ≤ [max 2000 (retryAfterMs none), max (2000 * 2) (retryAfterMs (some 7))].sum :=
  C1_two_rate_limits_then_success 6 2000 (by norm_num) c1response [] [] [] [] none (some 7)
    c1backend rfl rfl rfl

/-- C2: a non-transient first failure raises immediately, with zero retries
and zero sleeps, and the raised error text carries the HTTP status when
present, the underlying message, and the non-empty stringified response
body. -/
theorem C2_nontransient_raises_immediately (maxRetries b0 : Nat) (backend : Nat → LlmOutcome)
    (st : Option Nat) (tmo : Bool) (msg data : List Char) (ra : Option Nat)
    (h0 : backend 0 = LlmOutcome.failure st tmo msg data ra)
    (hnt : shouldRetry st tmo = false) :
    createChatCompletion maxRetries b0 backend = CCResult.error (errString st msg data) 0 [] ∧
    msg <:+: errString st msg data ∧
    (∀ s, st = some s → natDigits s <:+: errString st msg data) ∧
    (data ≠ [] → data <:+: errString st msg data) := by
  refine ⟨?_, ?_, ?_, ?_⟩
  · rw [createChatCompletion]
    exact ccLoop_fail maxRetries backend 0 b0 [] st tmo msg data ra h0
      (by simp [hnt])
  · exact ⟨("LLM request failed").data ++ (statusInfo st ++ (": ").data), errDetails data,
      by simp [errString]⟩
  · intro s hs
    subst hs
    exact ⟨("LLM request failed").data ++ (" (status ").data,
      (")").data ++ ((": ").data ++ (msg ++ errDetails data)),
      by simp [errString, statusInfo]⟩
  · intro hdata
    exact ⟨("LLM request failed").data ++ (statusInfo st ++ ((": ").data ++ (msg ++ (" - ").data))),
      [], by simp [errString, errDetails, hdata]⟩

/-- C2 witness: a 400 status with message `bad` and body `x` raises at once. -/
theorem C2_nontransient_raises_immediately_witness :
    createChatCompletion 6 2000 c2backend =
      CCResult.error (errString (some 400) ('b' :: 'a' :: 'd' :: []) ('x' :: [])) 0 [] ∧
    ('b' :: 'a' :: 'd' :: []) <:+: errString (some 400) ('b' :: 'a' :: 'd' :: []) ('x' :: []) ∧
    (∀ s, (some 400 : Option Nat) = some s →
      natDigits s <:+: errString (some 400) ('b' :: 'a' :: 'd' :: []) ('x' :: [])) ∧
    (('x' :: []) ≠ [] →
      ('x' :: []) <:+: errString (some 400) ('b' :: 'a' :: 'd' :: []) ('x' :: [])) :=
  C2_nontransient_raises_immediately 6 2000 c2backend (some 400) false
    ('b' :: 'a' :: 'd' :: []) ('x' :: []) none rfl rfl

/-- A successful run's messages extend the accumulator by user/assistant pairs,
one pair per remaining script step. -/
theorem runSteps_ok_shape (mode : InterviewerMode)
    (client : Nat → Except (List Char) ChatResponse) :
    ∀ (steps : List (List Char)) (acc : List ChatMessage) (counter : Nat)
      (msgs : List ChatMessage) (calls : Nat),
    runSteps mode client steps acc counter = SessionResult.ok msgs calls →
    ∃ pairs : List (List Char × List Char), pairs.length = steps.length ∧
      msgs = acc ++
        (pairs.map (fun p => [⟨Role.user, p.1⟩, ⟨Role.assistant, p.2⟩])).flatten := by
  intro steps
  induction steps with
  | nil =>
    intro acc counter msgs calls h
    rw [runSteps] at h
    cases h
    exact ⟨[], rfl, by simp⟩
  | cons step rest ih =>
    intro acc counter msgs calls h
    simp only [runSteps] at h
    rcases hr : requestContent client ("respondent").data 5
        (interviewerContent mode client step counter).2 with ⟨a, calls2, s2⟩ | ⟨e, calls2, s2⟩
    · rw [hr] at h
      simp only [] at h
      obtain ⟨pairs, hlen, hmsgs⟩ := ih _ _ _ _ h
      refine ⟨((interviewerContent mode client step counter).1, a) :: pairs, by simp [hlen], ?_⟩
      rw [hmsgs]
      simp [List.append_assoc]
    · rw [hr] at h
      simp at h

/-- The message count of user/assistant pair blocks is twice the pair count. -/
theorem pairsFlatten_length (pairs : List (List Char × List Char)) :
    ((pairs.map (fun p =>
      [(⟨Role.user, p.1⟩ : ChatMessage), ⟨Role.assistant, p.2⟩])).flatten).length =
      2 * pairs.length := by
  induction pairs with
  | nil => simp
  | cons p ps ih =>
    simp only [List.map_cons, List.flatten_cons, List.length_append, ih, List.length_cons,
      List.length_nil]
    omega

/-- C5: a successfully completed session has exactly twice as many turns as
script steps, consisting of one user-role interviewer turn followed by one
assistant-role respondent turn per step, in script order, for every
interviewer mode. -/
theorem C5_session_turn_structure (mode : InterviewerMode)
    (client : Nat → Except (List Char) ChatResponse) (script : List (List Char))
    (msgs : List ChatMessage) (calls : Nat)
    (h : runSession mode client script = SessionResult.ok msgs calls) :
    msgs.length = 2 * script.length ∧
    ∃ pairs : List (List Char × List Char), pairs.length = script.length ∧
      msgs = (pairs.map (fun p => [⟨Role.user, p.1⟩, ⟨Role.assistant, p.2⟩])).flatten := by
  obtain ⟨pairs, hlen, hmsgs⟩ := runSteps_ok_shape mode client script [] 0 msgs calls h
  simp only [List.nil_append] at hmsgs
  refine ⟨?_, pairs, hlen, hmsgs⟩
  rw [hmsgs, pairsFlatten_length, hlen]

/-- C5 witness: a one-step script in script mode with a client answering `hi`
completes with one user turn followed by one assistant turn. -/
theorem C5_session_turn_structure_witness :
    runSession InterviewerMode.script c5client [("Q1").data] =
      SessionResult.ok [⟨Role.user, ("Q1").data⟩, ⟨Role.assistant, ('h' :: 'i' :: [])⟩] 1 ∧
    ([(⟨Role.user, ("Q1").data⟩ : ChatMessage), ⟨Role.assistant, ('h' :: 'i' :: [])⟩].length =
      2 * [("Q1").data].length ∧
    ∃ pairs : List (List Char × List Char), pairs.length = [("Q1").data].length ∧
      [(⟨Role.user, ("Q1").data⟩ : ChatMessage), ⟨Role.assistant, ('h' :: 'i' :: [])⟩] =
        (pairs.map (fun p => [⟨Role.user, p.1⟩, ⟨Role.assistant, p.2⟩])).flatten) :=
  ⟨by decide, C5_session_turn_structure InterviewerMode.script c5client [("Q1").data]
    [⟨Role.user, ("Q1").data⟩, ⟨Role.assistant, ('h' :: 'i' :: [])⟩] 1 (by decide)⟩

/-- One all-empty attempt advances the loop, sleeping unless it was the last
attempt. -/
theorem rcLoop_empty_step (client : Nat → Except (List Char) ChatResponse) (lbl : List Char)
    (r attempt counter : Nat) (sleeps : List Nat) (h : yieldsEmpty client counter) :
    rcLoop client lbl (r + 1) attempt counter sleeps =
      rcLoop client lbl r (attempt + 1) (counter + 1)
        (if 0 < r then sleeps ++ [1000 * (attempt + 1)] else sleeps) := by
  obtain ⟨resp, h1, h2⟩ := h
  rw [rcLoop, h1]
  simp [h2]

/-- When every attempt yields empty content the loop exhausts its budget,
sleeping linearly between attempts, and raises `response missing`. -/
theorem rcLoop_all_empty (client : Nat → Except (List Char) ChatResponse) (lbl : List Char) :
    ∀ (r attempt counter : Nat) (sleeps : List Nat),
    (∀ k, k < r → yieldsEmpty client (counter + k)) →
    rcLoop client lbl r attempt counter sleeps =
      RCResult.error (lbl ++ (" response missing.").data) (counter + r)
        (sleeps ++ linSleeps r attempt) := by
  intro r
  induction r with
  | zero =>
    intro attempt counter sleeps _
    rw [rcLoop]
    simp [linSleeps]
  | succ r ih =>
    intro attempt counter sleeps hyp
    rw [rcLoop_empty_step client lbl r attempt counter sleeps (by simpa using hyp 0 (by omega))]
    rw [ih (attempt + 1) (counter + 1) _ (fun k hk => by
      have := hyp (k + 1) (by omega)
      rwa [show counter + (k + 1) = counter + 1 + k by omega] at this)]
    have hsch : (if 0 < r then sleeps ++ [1000 * (attempt + 1)] else sleeps) ++
        linSleeps r (attempt + 1) = sleeps ++ linSleeps (r + 1) attempt := by
      rw [linSleeps]
      by_cases h0 : 0 < r
      · simp [h0, List.append_assoc]
      · simp [h0]
    rw [hsch, show counter + 1 + r = counter + (r + 1) by omega]

/-- C7: interviewer-turn failures never abort the session (the step falls back
to the literal script line and continues); the respondent turn uses an attempt
budget of 5 with linear `1000 × attempt` sleeps between attempts, and
exhausting them raises an error that fails the entire session. -/
theorem C7_interviewer_fallback_respondent_budget :
    (∀ (client : Nat → Except (List Char) ChatResponse) (counter : Nat) (step : List Char)
        (rest : List (List Char)) (acc : List ChatMessage) (e : List Char) (calls : Nat)
        (s : List Nat),
      requestContent client ("interviewer").data 3 counter = RCResult.error e calls s →
      runSteps InterviewerMode.llm client (step :: rest) acc counter =
        (match requestContent client ("respondent").data 5 calls with
         | RCResult.error e2 c2 _ => SessionResult.error e2 c2
         | RCResult.ok a c2 _ =>
            runSteps InterviewerMode.llm client rest
              ((acc ++ [⟨Role.user, step⟩]) ++ [⟨Role.assistant, a⟩]) c2)) ∧
    (∀ (client : Nat → Except (List Char) ChatResponse) (lbl : List Char) (counter : Nat),
      (∀ k, k < 5 → yieldsEmpty client (counter + k)) →
      requestContent client lbl 5 counter =
        RCResult.error (lbl ++ (" response missing.").data) (counter + 5)
          [1000 * 1, 1000 * 2, 1000 * 3, 1000 * 4]) ∧
    (∀ (mode : InterviewerMode) (client : Nat → Except (List Char) ChatResponse)
        (step : List Char) (rest : List (List Char)) (acc : List ChatMessage)
        (counter : Nat) (e : List Char) (calls : Nat) (s : List Nat),
      requestContent client ("respondent").data 5
          (interviewerContent mode client step counter).2 = RCResult.error e calls s →
      runSteps mode client (step :: rest) acc counter = SessionResult.error e calls) := by
  refine ⟨?_, ?_, ?_⟩
  · intro client counter step rest acc e calls s h
    simp only [runSteps, interviewerContent, h]
  · intro client lbl counter hyp
    rw [requestContent, rcLoop_all_empty client lbl 5 0 counter [] hyp]
    simp [linSleeps]
  · intro mode client step rest acc counter e calls s h
    simp only [runSteps, h]

/-- C7 witness: a client that always answers with empty content exhausts the
respondent budget with sleeps 1000, 2000, 3000, 4000 and fails the session,
while the interviewer turn falls back and proceeds to the respondent turn. -/
theorem C7_interviewer_fallback_respondent_budget_witness :
    (runSteps InterviewerMode.llm c7client [("q").data] [] 0 =
      (match requestContent c7client ("respondent").data 5 3 with
       | RCResult.error e2 c2 _ => SessionResult.error e2 c2
       | RCResult.ok a c2 _ =>
          runSteps InterviewerMode.llm c7client []
            (([] ++ [⟨Role.user, ("q").data⟩]) ++ [⟨Role.assistant, a⟩]) c2)) ∧
    (requestContent c7client ("respondent").data 5 0 =
      RCResult.error (("respondent").data ++ (" response missing.").data) (0 + 5)
        [1000 * 1, 1000 * 2, 1000 * 3, 1000 * 4]) ∧
    (runSteps InterviewerMode.llm c7client [("q").data] [] 0 =
      SessionResult.error (("respondent").data ++ (" response missing.").data) 8) :=
  ⟨C7_interviewer_fallback_respondent_budget.1 c7client 0 (("q").data) [] []
      (("interviewer").data ++ (" response missing.").data) 3 [1000 * 1, 1000 * 2] (by decide),
    C7_interviewer_fallback_respondent_budget.2.1 c7client (("respondent").data) 0
      (fun k _ => ⟨emptyResponse, rfl, rfl⟩),
    C7_interviewer_fallback_respondent_budget.2.2 InterviewerMode.llm c7client (("q").data) [] []
      0 (("respondent").data ++ (" response missing.").data) 8
      [1000 * 1, 1000 * 2, 1000 * 3, 1000 * 4] (by decide)⟩

/-- An id is among the completed persona ids exactly when some persisted
session has that non-empty persona id. -/
theorem mem_loadCompletedPersonaIds (stored : List StoredSession) (x : List Char) :
    x ∈ loadCompletedPersonaIds stored ↔
      ∃ st ∈ stored, st.personaId ≠ [] ∧ st.personaId = x := by
  induction stored with
  | nil => simp [loadCompletedPersonaIds]
  | cons s rest ih =>
    rw [loadCompletedPersonaIds]
    by_cases h : s.personaId = [] <;> simp [h, ih] <;> tauto

/-- C3 (amended): the batch scheduler runs a SessionRunner exactly for those
personas whose id is not among the non-empty persona ids of persisted
sessions (a persisted session with an empty persona id is ignored by the
resumption scan), so no session is re-run or re-written for a persona that
already has a persisted session with its (non-empty) id. -/
theorem C3_resumption_filter (personas : List Persona) (stored : List StoredSession) :
    (∀ p : Persona, p ∈ simulateInterviews personas stored ↔
      p ∈ personas ∧ ¬∃ st ∈ stored, st.personaId ≠ [] ∧ st.personaId = p.id) ∧
    (∀ q ∈ simulateInterviews personas stored,
      ¬∃ st ∈ stored, st.personaId ≠ [] ∧ st.personaId = q.id) := by
  have hmem : ∀ p : Persona, p ∈ simulateInterviews personas stored ↔
      p ∈ personas ∧ p.id ∉ loadCompletedPersonaIds stored := by
    intro p
    simp [simulateInterviews, pendingPersonas, List.mem_filter]
  constructor
  · intro p
    rw [hmem p]
    simp [mem_loadCompletedPersonaIds]
  · intro q hq
    have h := (hmem q).mp hq
    rw [mem_loadCompletedPersonaIds] at h
    exact h.2

/-- C3 witness: 5 personas of which 2 have persisted sessions give exactly 3
scheduled runners, with no runner for a persona whose id is persisted. -/
theorem C3_resumption_filter_witness :
    ((⟨("p3").data, ("s").data⟩ : Persona) ∈ simulateInterviews c3personas c3stored ↔
      (⟨("p3").data, ("s").data⟩ : Persona) ∈ c3personas ∧
        ¬∃ st ∈ c3stored, st.personaId ≠ [] ∧
          st.personaId = (⟨("p3").data, ("s").data⟩ : Persona).id) ∧
    (∀ q ∈ simulateInterviews c3personas c3stored,
      ¬∃ st ∈ c3stored, st.personaId ≠ [] ∧ st.personaId = q.id) ∧
    simulateInterviews c3personas c3stored =
      [⟨("p3").data, ("s").data⟩, ⟨("p4").data, ("s").data⟩, ⟨("p5").data, ("s").data⟩] :=
  ⟨(C3_resumption_filter c3personas c3stored).1 _,
    (C3_resumption_filter c3personas c3stored).2, by decide⟩

/-- C3 counterexample: a persisted session whose persona id is empty is
ignored by the resumption scan, so a persona with that (empty) id is
scheduled again even though its id is among the persisted persona ids. -/
theorem C3_empty_id_counterexample :
    (⟨[], ("s1").data⟩ : Persona) ∈ simulateInterviews [⟨[], ("s1").data⟩] [⟨[]⟩] ∧
    (⟨[]⟩ : StoredSession) ∈ ([⟨[]⟩] : List StoredSession) ∧
    (⟨[]⟩ : StoredSession).personaId = (⟨[], ("s1").data⟩ : Persona).id :=
  ⟨by decide, by decide, by decide⟩

/-- C4 (amended): per model, a non-empty first response that fails the strict
JSON parse is first given to the loose line-based fallback (separator one of
hyphen, em dash, colon, equals — the en dash is not in the code's class;
case-insensitive), accepted when at least one field value is non-empty and
with no reminder issued; only when the loose fallback also yields nothing is
exactly one reminder request issued, whose output is strict-parsed and then
loose-parsed under the same acceptance rule. -/
theorem C4_loose_before_reminder (o : ModelOracle) (schema : List Metric)
    (content rc : List Char)
    (hc : requestAnalysisContent o.attempts = content)
    (hr : extractMessageText o.reminder.choices.head? = rc) :
    (content = [] → modelStep o schema = (none, false)) ∧
    (∀ row, content ≠ [] → parseAnalysisRow content schema = some row →
      modelStep o schema = (some row, false)) ∧
    (content ≠ [] → parseAnalysisRow content schema = none →
      hasAnyValue (parseLooseAnalysisRow content schema) = true →
      modelStep o schema = (some (parseLooseAnalysisRow content schema), false)) ∧
    (content ≠ [] → parseAnalysisRow content schema = none →
      hasAnyValue (parseLooseAnalysisRow content schema) = false →
      (modelStep o schema).2 = true ∧
      (rc = [] → modelStep o schema = (none, true)) ∧
      (∀ row2, rc ≠ [] → parseAnalysisRow rc schema = some row2 →
        modelStep o schema = (some row2, true)) ∧
      (rc ≠ [] → parseAnalysisRow rc schema = none →
        hasAnyValue (parseLooseAnalysisRow rc schema) = true →
        modelStep o schema = (some (parseLooseAnalysisRow rc schema), true)) ∧
      (rc ≠ [] → parseAnalysisRow rc schema = none →
        hasAnyValue (parseLooseAnalysisRow rc schema) = false →
        modelStep o schema = (none, true))) := by
  subst hc
  subst hr
  refine ⟨?_, ?_, ?_, ?_⟩
  · intro h
    simp [modelStep, h]
  · intro row hne hparse
    simp [modelStep, hne, hparse]
  · intro hne hparse hloose
    simp [modelStep, hne, hparse, hloose]
  · intro hne hparse hloose
    refine ⟨?_, ?_, ?_, ?_, ?_⟩
    · by_cases hrc : extractMessageText o.reminder.choices.head? = []
      · simp [modelStep, hne, hparse, hloose, hrc]
      · rcases hp : parseAnalysisRow (extractMessageText o.reminder.choices.head?) schema with
          _ | row2
        · by_cases hl : hasAnyValue
              (parseLooseAnalysisRow (extractMessageText o.reminder.choices.head?) schema) <;>
            simp [modelStep, hne, hparse, hloose, hrc, hp, hl]
        · simp [modelStep, hne, hparse, hloose, hrc, hp]
    · intro hrc
      simp [modelStep, hne, hparse, hloose, hrc]
    · intro row2 hrc hp
      simp [modelStep, hne, hparse, hloose, hrc, hp]
    · intro hrc hp hl
      simp [modelStep, hne, hparse, hloose, hrc, hp, hl]
    · intro hrc hp hl
      simp [modelStep, hne, hparse, hloose, hrc, hp, hl]

/-- C4 witness: unusable first content (`zzz`) with a JSON reminder output
issues the reminder and resolves from its strict parse. -/
theorem C4_loose_before_reminder_witness :
    modelStep c4wOracle c4schema = (some [((("pain").data), ("ok").data)], true) :=
  ((C4_loose_before_reminder c4wOracle c4schema ('z' :: 'z' :: 'z' :: [])
      (("\x7b\"pain\":\"ok\"\x7d").data) (by decide) (by decide)).2.2.2
    (by decide) (by decide) (by decide)).2.2.1
    [((("pain").data), ("ok").data)] (by decide) (by decide)

/-- C4 counterexample: on the response `pain: high` the strict parse fails,
yet no reminder request is issued — the loose fallback is accepted directly
from the first response, contradicting the claimed reminder-then-loose
order. -/
theorem C4_no_reminder_counterexample :
    parseAnalysisRow (requestAnalysisContent c4oracle.attempts) c4schema = none ∧
    requestAnalysisContent c4oracle.attempts ≠ [] ∧
    modelStep c4oracle c4schema = (some [((("pain").data), ("high").data)], false) :=
  ⟨by decide, by decide, by decide⟩

/-- A normalized row's keys are exactly the configured keys, in order. -/
theorem normalizeRow_keys (parsed : List (List Char × List Char)) (schema : List Metric) :
    (normalizeRow parsed schema).map Prod.fst = schema.map Metric.key := by
  simp [normalizeRow]

/-- A loose row's keys are exactly the configured keys, in order. -/
theorem looseRow_keys (content : List Char) (schema : List Metric) :
    (parseLooseAnalysisRow content schema).map Prod.fst = schema.map Metric.key := by
  simp [parseLooseAnalysisRow]

/-- Enrichment sanitizes values but preserves the keys. -/
theorem enrichRow_keys (row : List (List Char × List Char)) (personaId segmentId : List Char) :
    (enrichRow row personaId segmentId).fields.map Prod.fst = row.map Prod.fst := by
  simp [enrichRow]

/-- A strict-parsed row has exactly the configured keys. -/
theorem parseAnalysisRow_keys (content : List Char) (schema : List Metric)
    (row : List (List Char × List Char)) (h : parseAnalysisRow content schema = some row) :
    row.map Prod.fst = schema.map Metric.key := by
  rw [parseAnalysisRow] at h
  rcases hj : parseJsonFromText (sanitizeContent content) with _ | j
  · rw [hj] at h
    simp at h
  · rw [hj] at h
    simp only [Option.map_eq_some'] at h
    obtain ⟨parsed, _, rfl⟩ := h
    exact normalizeRow_keys parsed schema

/-- Any row resolved by one model trial has exactly the configured keys. -/
theorem modelStep_keys (o : ModelOracle) (schema : List Metric)
    (row : List (List Char × List Char)) (h : (modelStep o schema).1 = some row) :
    row.map Prod.fst = schema.map Metric.key := by
  rw [modelStep] at h
  by_cases h0 : requestAnalysisContent o.attempts = []
  · rw [if_pos h0] at h
    simp at h
  · rw [if_neg h0] at h
    rcases hp : parseAnalysisRow (requestAnalysisContent o.attempts) schema with _ | row1
    · rw [hp] at h
      by_cases hl : hasAnyValue
          (parseLooseAnalysisRow (requestAnalysisContent o.attempts) schema) = true
      · rw [if_pos hl] at h
        simp at h
        rw [← h]
        exact looseRow_keys _ schema
      · rw [if_neg hl] at h
        by_cases hrc : extractMessageText o.reminder.choices.head? = []
        · rw [if_pos hrc] at h
          simp at h
        · rw [if_neg hrc] at h
          rcases hp2 : parseAnalysisRow (extractMessageText o.reminder.choices.head?) schema with
            _ | row2
          · rw [hp2] at h
            by_cases hl2 : hasAnyValue
                (parseLooseAnalysisRow (extractMessageText o.reminder.choices.head?) schema) = true
            · rw [if_pos hl2] at h
              simp at h
              rw [← h]
              exact looseRow_keys _ schema
            · rw [if_neg hl2] at h
              simp at h
          · rw [hp2] at h
            simp at h
            rw [← h]
            exact parseAnalysisRow_keys _ schema row2 hp2
    · rw [hp] at h
      simp at h
      rw [← h]
      exact parseAnalysisRow_keys _ schema row1 hp

/-- Any row resolved by the cascade has exactly the configured keys. -/
theorem cascadeResolve_keys (schema : List Metric) :
    ∀ (oracles : List ModelOracle) (row : List (List Char × List Char)),
    cascadeResolve oracles schema = some row → row.map Prod.fst = schema.map Metric.key := by
  intro oracles
  induction oracles with
  | nil =>
    intro row h
    simp [cascadeResolve] at h
  | cons o rest ih =>
    intro row h
    rw [cascadeResolve] at h
    rcases hm : (modelStep o schema).1 with _ | row1
    · rw [hm] at h
      exact ih row h
    · rw [hm] at h
      cases h
      exact modelStep_keys o schema row hm

/-- The sanitizer maps the empty value to the empty value. -/
theorem sanitizeValue_nil : sanitizeValue [] = [] := by decide

/-- C6: every analysis record has exactly the configured field keys in order,
each with a string value, plus the session's persona and segment ids; and
when the whole cascade resolves nothing, every configured field is the empty
string. -/
theorem C6_record_shape (oracles : List ModelOracle) (schema : List Metric)
    (personaId segmentId : List Char) :
    (analyzeSession oracles schema personaId segmentId).fields.map Prod.fst =
      schema.map Metric.key ∧
    (analyzeSession oracles schema personaId segmentId).personaId = personaId ∧
    (analyzeSession oracles schema personaId segmentId).segmentId = segmentId ∧
    (cascadeResolve oracles schema = none →
      ∀ kv ∈ (analyzeSession oracles schema personaId segmentId).fields, kv.2 = []) := by
  rcases hres : cascadeResolve oracles schema with _ | row
  · refine ⟨?_, ?_, ?_, ?_⟩
    · rw [analyzeSession, hres, enrichRow_keys, normalizeRow_keys]
    · rw [analyzeSession, hres]
      rfl
    · rw [analyzeSession, hres]
      rfl
    · intro _ kv hkv
      rw [analyzeSession, hres] at hkv
      simp [enrichRow, normalizeRow, rowLookup] at hkv
      obtain ⟨m, hm, rfl⟩ := hkv
      exact sanitizeValue_nil
  · refine ⟨?_, ?_, ?_, ?_⟩
    · rw [analyzeSession, hres, enrichRow_keys]
      exact cascadeResolve_keys schema oracles row hres
    · rw [analyzeSession, hres]
      rfl
    · rw [analyzeSession, hres]
      rfl
    · intro hnone
      exact Option.noConfusion hnone

/-- C6 witness: one model whose responses are all empty resolves nothing, and
the record keeps both configured keys with empty values plus the identity
fields. -/
theorem C6_record_shape_witness :
    (analyzeSession [c6emptyOracle] c6schema (("p1").data) (("s").data)).fields.map Prod.fst =
      c6schema.map Metric.key ∧
    (analyzeSession [c6emptyOracle] c6schema (("p1").data) (("s").data)).personaId =
      ("p1").data ∧
    (analyzeSession [c6emptyOracle] c6schema (("p1").data) (("s").data)).segmentId =
      ("s").data ∧
    (∀ kv ∈ (analyzeSession [c6emptyOracle] c6schema (("p1").data) (("s").data)).fields,
      kv.2 = []) :=
  ⟨(C6_record_shape [c6emptyOracle] c6schema (("p1").data) (("s").data)).1,
    (C6_record_shape [c6emptyOracle] c6schema (("p1").data) (("s").data)).2.1,
    (C6_record_shape [c6emptyOracle] c6schema (("p1").data) (("s").data)).2.2.1,
    (C6_record_shape [c6emptyOracle] c6schema (("p1").data) (("s").data)).2.2.2 (by decide)⟩

/-- A dropWhile result is empty or starts with a character failing the
predicate. -/
theorem dropWhile_shape (p : Char → Bool) (l : List Char) :
    l.dropWhile p = [] ∨ ∃ c rest, l.dropWhile p = c :: rest ∧ p c = false := by
  induction l with
  | nil => exact Or.inl rfl
  | cons a l ih =>
    rw [List.dropWhile_cons]
    by_cases h : p a = true
    · rw [if_pos h]
      exact ih
    · rw [if_neg h]
      exact Or.inr ⟨a, l, rfl, by simpa using h⟩

/-- A non-empty trimmed string contains a non-whitespace character. -/
theorem trimL_has_nonws (x : List Char) (h : trimL x ≠ []) :
    ∃ c ∈ trimL x, isJsWs c = false := by
  rcases dropWhile_shape isJsWs (x.dropWhile isJsWs).reverse with h0 | ⟨c, rest, heq, hc⟩
  · exact absurd (by rw [trimL, h0]; rfl) h
  · exact ⟨c, by rw [trimL, heq]; simp, hc⟩

/-- Every kept normalized model is trimmed non-empty, differs from the
primary model, and contains a non-whitespace character. -/
theorem nmGo_mem (primary : Option (List Char)) :
    ∀ (models : List (List Char)) (seen : List (List Char)) (m : List Char),
    m ∈ nmGo primary seen models →
    some m ≠ primary ∧ m ≠ [] ∧ ∃ c ∈ m, isJsWs c = false := by
  intro models
  induction models with
  | nil =>
    intro seen m h
    simp [nmGo] at h
  | cons x rest ih =>
    intro seen m h
    by_cases h1 : trimL x = [] ∨ primary = some (trimL x)
    · rw [nmGo, if_pos h1] at h
      exact ih _ _ h
    · by_cases h2 : lcStr (trimL x) ∈ seen
      · rw [nmGo, if_neg h1, if_pos h2] at h
        exact ih _ _ h
      · rw [nmGo, if_neg h1, if_neg h2] at h
        push_neg at h1
        rcases List.mem_cons.mp h with rfl | hmem
        · exact ⟨fun hp => h1.2 hp.symm, h1.1, trimL_has_nonws x h1.1⟩
        · exact ih _ _ hmem

/-- The normalized list is a sublist of the trimmed inputs (original order
and casing preserved). -/
theorem nmGo_sublist (primary : Option (List Char)) :
    ∀ (models : List (List Char)) (seen : List (List Char)),
    List.Sublist (nmGo primary seen models) (models.map trimL) := by
  intro models
  induction models with
  | nil => intro seen; simp [nmGo]
  | cons x rest ih =>
    intro seen
    by_cases h1 : trimL x = [] ∨ primary = some (trimL x)
    · rw [nmGo, if_pos h1, List.map_cons]
      exact (ih seen).cons _
    · by_cases h2 : lcStr (trimL x) ∈ seen
      · rw [nmGo, if_neg h1, if_pos h2, List.map_cons]
        exact (ih seen).cons _
      · rw [nmGo, if_neg h1, if_neg h2, List.map_cons]
        exact (ih _).cons₂ _

/-- No kept model's lowercase form is in the seen accumulator. -/
theorem nmGo_not_seen (primary : Option (List Char)) :
    ∀ (models : List (List Char)) (seen : List (List Char)) (m : List Char),
    m ∈ nmGo primary seen models → lcStr m ∉ seen := by
  intro models
  induction models with
  | nil =>
    intro seen m h
    simp [nmGo] at h
  | cons x rest ih =>
    intro seen m h
    by_cases h1 : trimL x = [] ∨ primary = some (trimL x)
    · rw [nmGo, if_pos h1] at h
      exact ih _ _ h
    · by_cases h2 : lcStr (trimL x) ∈ seen
      · rw [nmGo, if_neg h1, if_pos h2] at h
        exact ih _ _ h
      · rw [nmGo, if_neg h1, if_neg h2] at h
        rcases List.mem_cons.mp h with rfl | hmem
        · exact h2
        · intro hs
          exact ih _ _ hmem (List.mem_cons_of_mem _ hs)

/-- The normalized list has no case-insensitive duplicates. -/
theorem nmGo_pairwise (primary : Option (List Char)) :
    ∀ (models : List (List Char)) (seen : List (List Char)),
    List.Pairwise (fun a b => lcStr a ≠ lcStr b) (nmGo primary seen models) := by
  intro models
  induction models with
  | nil => intro seen; simp [nmGo]
  | cons x rest ih =>
    intro seen
    by_cases h1 : trimL x = [] ∨ primary = some (trimL x)
    · rw [nmGo, if_pos h1]
      exact ih seen
    · by_cases h2 : lcStr (trimL x) ∈ seen
      · rw [nmGo, if_neg h1, if_pos h2]
        exact ih seen
      · rw [nmGo, if_neg h1, if_neg h2]
        refine List.Pairwise.cons ?_ (ih _)
        intro b hb hlc
        exact nmGo_not_seen primary rest _ b hb (by rw [← hlc]; exact List.mem_cons_self _ _)

/-- Every usable input model (trimmed non-empty, not the primary) is
represented in the normalized list by its first case-insensitive
occurrence. -/
theorem nmGo_cover (primary : Option (List Char)) :
    ∀ (models : List (List Char)) (seen : List (List Char)) (x : List Char),
    x ∈ models → trimL x ≠ [] → primary ≠ some (trimL x) → lcStr (trimL x) ∉ seen →
    ∃ m ∈ nmGo primary seen models, lcStr m = lcStr (trimL x) := by
  intro models
  induction models with
  | nil =>
    intro seen x hx
    simp at hx
  | cons y rest ih =>
    intro seen x hx hne hp hseen
    by_cases h1 : trimL y = [] ∨ primary = some (trimL y)
    · rw [nmGo, if_pos h1]
      rcases List.mem_cons.mp hx with rfl | hmem
      · rcases h1 with h1a | h1b
        · exact absurd h1a hne
        · exact absurd h1b hp
      · exact ih _ _ hmem hne hp hseen
    · by_cases h2 : lcStr (trimL y) ∈ seen
      · rw [nmGo, if_neg h1, if_pos h2]
        rcases List.mem_cons.mp hx with rfl | hmem
        · exact absurd h2 hseen
        · exact ih _ _ hmem hne hp hseen
      · rw [nmGo, if_neg h1, if_neg h2]
        by_cases heq : lcStr (trimL x) = lcStr (trimL y)
        · exact ⟨trimL y, List.mem_cons_self _ _, heq.symm⟩
        · rcases List.mem_cons.mp hx with rfl | hmem
          · exact absurd rfl heq
          · obtain ⟨m, hm, hlc⟩ := ih (lcStr (trimL y) :: seen) x hmem hne hp (by
              intro hin
              rcases List.mem_cons.mp hin with hcase | hcase
              · exact heq hcase
              · exact hseen hcase)
            exact ⟨m, List.mem_cons_of_mem _ hm, hlc⟩

/-- C10: the normalized fallback list contains no entry equal to the primary
model, no empty or whitespace-only entries, and no case-insensitive
duplicates, keeping first occurrences with original order and casing (it is a
sublist of the trimmed inputs); and an unreadable or invalid-JSON file, or one
failing both schemas, yields the normalized built-in default list with source
`default` instead of raising. -/
theorem C10_fallback_models (models : List (List Char)) (primary : Option (List Char)) :
    ((∀ m ∈ normalizeModels models primary,
        some m ≠ primary ∧ m ≠ [] ∧ ∃ c ∈ m, isJsWs c = false) ∧
      List.Pairwise (fun a b => lcStr a ≠ lcStr b) (normalizeModels models primary) ∧
      List.Sublist (normalizeModels models primary) (models.map trimL) ∧
      (∀ x ∈ models, trimL x ≠ [] → primary ≠ some (trimL x) →
        ∃ m ∈ normalizeModels models primary, lcStr m = lcStr (trimL x))) ∧
    loadFallbackModels (Except.error ()) primary =
      (normalizeModels defaultFallbackModels primary, FMSource.fromDefault) ∧
    (∀ jv : Json, modelsArrayOf jv = none → modelsConfigOf jv = none →
      loadFallbackModels (Except.ok jv) primary =
        (normalizeModels defaultFallbackModels primary, FMSource.fromDefault)) :=
  ⟨⟨fun m hm => nmGo_mem primary models [] m hm,
      nmGo_pairwise primary models [],
      nmGo_sublist primary models [],
      fun x hx h1 h2 => nmGo_cover primary models [] x hx h1 h2 (by simp)⟩,
    rfl,
    fun jv h1 h2 => by rw [loadFallbackModels, h1, h2]⟩

/-- C10 witness: mixed-case duplicates, surrounding whitespace, an empty entry
and the primary model itself are all filtered; only the trimmed first
occurrence remains, and read failure yields the defaults. -/
theorem C10_fallback_models_witness :
    normalizeModels [(" A ").data, ("a").data, [], ("b").data] (some (("b").data)) =
      [("A").data] ∧
    (∀ m ∈ normalizeModels [(" A ").data, ("a").data, [], ("b").data] (some (("b").data)),
      some m ≠ some (("b").data) ∧ m ≠ [] ∧ ∃ c ∈ m, isJsWs c = false) ∧
    loadFallbackModels (Except.error ()) (some (("b").data)) =
      (normalizeModels defaultFallbackModels (some (("b").data)), FMSource.fromDefault) :=
  ⟨by decide,
    (C10_fallback_models [(" A ").data, ("a").data, [], ("b").data] (some (("b").data))).1.1,
    (C10_fallback_models [(" A ").data, ("a").data, [], ("b").data] (some (("b").data))).2.1⟩

end CustDev

